import Mathlib

/-!
# Verification of the ranking drivers of `app.js`

A shallow embedding, in Lean 4, of the ranking core of the presidential
preference sorter: the seeded shuffle, the ELO initialisation arithmetic,
the resumable bottom-up merge-sort driver with its comparison cache,
tie set and undo stack, the tier-cutoff classifier, and the elimination
picker.  Every definition is translated from the JavaScript source
(`src/app.js`); candidates are represented by their ids (as `Nat`),
JS numbers by `Nat`/`Int`/`ℚ` with the exact integer semantics noted at
each definition.
-/

namespace PresSort

/-! ## Seeded shuffle (`seededRandom` / `seededShuffle`)

`seededRandom(seed)` is an xorshift32 generator whose initial state is
`seed >>> 0 || 1`.  All JS bitwise operators act on 32-bit values; `<<`
and `^` only depend on (and produce) the low 32 bits, while `>>` is a
*sign-propagating* shift of the value reinterpreted as a signed Int32.
`seededShuffle(array, seed)` filters the array down to candidate objects
with a truthy `id`, then runs a Fisher-Yates pass between 2 and 4 times;
crucially it calls `seededRandom()` with NO argument (`undefined >>> 0`
is `0`, and `0 || 1` is `1`), so the generator state never depends on
the `seed` parameter. -/

/-- A candidate object passed to `seededShuffle`: the source only reads
the `id` field there.  JS ids are nonempty strings; we model an id as a
`Nat`, where `0` stands for a falsy (empty) id, matching the truthiness
test `v && typeof v === 'object' && v.id` of the source's filter. -/
structure Cand where
  id : Nat
deriving Repr, DecidableEq

/-- Initial generator state: `seed >>> 0 || 1`.  A missing argument
(`seededRandom()`) is `undefined`, and `undefined >>> 0 = 0`, giving 1. -/
def seededRandomInit (seed : Option Nat) : Nat :=
  let s := match seed with
    | some v => v % 2 ^ 32
    | none => 0
  if s = 0 then 1 else s

/-- JS `x >> k` for `0 ≤ x < 2^32`, `0 < k ≤ 31`: the operand is
reinterpreted as a signed Int32, shifted arithmetically (the sign bit is
propagated into the top `k` bits), and the resulting bit pattern is read
back as an unsigned 32-bit value. -/
def jsSar (x k : Nat) : Nat :=
  if x < 2 ^ 31 then x >>> k
  else (x >>> k) ||| ((2 ^ k - 1) <<< (32 - k))

/-- One xorshift32 state update (the body of the closure returned by
`seededRandom`): `x ^= x << 13; x >>>= 0; x ^= x >> 17; x >>>= 0;
x ^= x << 5; x >>>= 0`. -/
def xorshift32Step (state : Nat) : Nat :=
  let x1 := (state ^^^ (state <<< 13)) % 2 ^ 32
  let x2 := (x1 ^^^ jsSar x1 17) % 2 ^ 32
  let x3 := (x2 ^^^ (x2 <<< 5)) % 2 ^ 32
  x3

/-- One `rand()` call, returning `Math.floor(rand() * k)` together with
the updated state.  The JS float returned by `rand()` is `state / 2^32`
exactly, so `Math.floor(rand() * k) = state * k / 2^32` in integer
arithmetic (the double multiplication is exact for `k ≤ 2^21`, far above
any array length in this app). -/
def randNat (state k : Nat) : Nat × Nat :=
  let s := xorshift32Step state
  (s * k / 2 ^ 32, s)

/-- `[a[i], a[j]] = [a[j], a[i]]`, guarded by `a[i] && a[j]` (candidate
objects are always truthy, so the guard only matters for out-of-range
indices, where the JS swap would write `undefined`; the source never
reaches that case because `i` and `j` are in range). -/
def swapIdx (a : List Cand) (i j : Nat) : List Cand :=
  match a.get? i, a.get? j with
  | some x, some y => (a.set i y).set j x
  | _, _ => a

/-- The inner Fisher-Yates loop `for (i = a.length - 1; i > 0; i--)`,
recursing on the loop index: at index `i + 1` it draws
`j = Math.floor(rand() * (i + 2))` and swaps positions `i + 1` and `j`. -/
def fisherDown (st : Nat) (a : List Cand) : Nat → Nat × List Cand
  | 0 => (st, a)
  | i + 1 =>
    let p := randNat st (i + 2)
    fisherDown p.2 (swapIdx a (i + 1) p.1) i

/-- The outer loop `for (n = 0; n < 2 + Math.floor(rand() * 3); n++)`:
the bound is re-evaluated (consuming one `rand()`) before every
iteration, and is between 2 and 4, so at most five condition checks
occur; `fuel = 5` therefore never runs out. -/
def shuffleGo : Nat → Nat → Nat → List Cand → List Cand
  | 0, _, _, a => a
  | fuel + 1, n, st, a =>
    let p := randNat st 3
    if n < 2 + p.1 then
      let q := fisherDown p.2 a (a.length - 1)
      shuffleGo fuel (n + 1) q.1 q.2
    else a

/-- `seededShuffle(array, seed)`.  The body instantiates the generator
with `seededRandom()` — no argument — so `seed` is never read. -/
def seededShuffle (array : List Cand) (seed : Nat) : List Cand :=
  let rand0 := seededRandomInit none
  let a := array.filter (fun v => v.id ≠ 0)
  shuffleGo 5 0 rand0 a

/-! ## ELO initialisation (`initElo` / `estimateEloPairTarget`)

All quantities are small integers or exact dyadic/decimal rationals, so
`ℚ` models the JS doubles faithfully here: the only rounding operation
is `Math.round`, and its argument is never a value whose floating-point
representation error could flip the rounding (for `fast` the argument is
strictly negative and only its sign matters after the `max(0, ·)` clamp;
for `balanced` it is `0`; for `accurate` it is exactly `base / 2`). -/

/-- `Math.round x = ⌊x + 1/2⌋` (round half towards `+∞`). -/
def jsRound (q : ℚ) : ℤ := ⌊q + 1 / 2⌋

/-- `Math.ceil(Math.log2 n)` for `n ≥ 1` (exact at these magnitudes). -/
def ceilLog2 (n : Nat) : Nat := Nat.clog 2 n

/-- `estimateEloPairTarget(n) = n ≤ 1 ? 0 :
max(n - 1, round(1.5 * n * ceil(log2 n)))`. -/
def estimateEloPairTarget (n : Nat) : Nat :=
  if n ≤ 1 then 0
  else
    let h := ceilLog2 n
    max (n - 1) (jsRound ((3 : ℚ) / 2 * n * h)).toNat

/-- Sorting intensity selected before `initElo` runs. -/
inductive Intensity
  | fast
  | balanced
  | accurate
deriving Repr, DecidableEq

/-- The numeric outcome of `initElo`'s intensity handling. -/
structure EloInit where
  multiplier : ℚ
  kFactor : Nat
  basePairs : Nat
  totalPairs : Nat
deriving Repr, DecidableEq

/-- The `totalPairs`/`kFactor` computation of `initElo`:
`basePairs = estimateEloPairTarget(n)`; `multiplier`/`kFactor` are
`0.6`/`40` for `fast`, `1.0`/`32` for `balanced`, `1.5`/`24` for
`accurate`; `extra = Math.max(0, Math.round((multiplier - 1) * basePairs))`
and `totalPairs = basePairs + extra`. -/
def initEloCore (n : Nat) (intensity : Intensity) : EloInit :=
  let basePairs := estimateEloPairTarget n
  let mk : ℚ × Nat :=
    match intensity with
    | .fast => (6 / 10, 40)
    | .balanced => (1, 32)
    | .accurate => (15 / 10, 24)
  let extra := (max 0 (jsRound ((mk.1 - 1) * basePairs))).toNat
  { multiplier := mk.1, kFactor := mk.2, basePairs := basePairs,
    totalPairs := basePairs + extra }

/-! ## Resumable merge-sort driver
(`initSort` / `continueSort` / `makePrefer` / `pushUndoSnapshot` /
`restoreFromUndo`)

Candidates are their ids (`Nat`).  `state.sorter.cache` is a JS object
mapping the key `"a|b"` to `1` (a wins), `0` (tie) or `-1` (b wins);
we model it as an association list with unique keys, keys being ordered
id pairs.  `state.sorter.ties` is a set of such keys.  The oracle
(`prefer`) produces `1`, `0`, `-1`, `null` (skip) or `'BACK'`; we model
the user's choices as a finite stream of `Judgment`s consumed whenever
`prefer` misses the cache, and the driver loop as a fuel-indexed step
function that returns the current state when the fuel or the stream runs
out (`done = false`) or when `width ≥ N` (`done = true`). -/

/-- Oracle outcome for one judgment request: the five buttons. -/
inductive Judgment
  | lft
  | tie
  | rgt
  | skp
  | back
deriving Repr, DecidableEq

/-- A cache key `"a|b"`, as the pair of ids. -/
abbrev CacheKey := Nat × Nat

/-- The comparison cache object, as an association list (keys unique). -/
abbrev Cache := List (CacheKey × Int)

/-- The tie set object, as a list of keys (membership is what matters). -/
abbrev Ties := List CacheKey

/-- Object property read `cache[k]` (first matching key). -/
def cacheGet : Cache → CacheKey → Option Int
  | [], _ => none
  | kv :: rest, k => if kv.1 = k then some kv.2 else cacheGet rest k

/-- Object property write `cache[k] = v`: update in place if the key
exists, otherwise append (JS insertion order). -/
def cacheSet : Cache → CacheKey → Int → Cache
  | [], k, v => [(k, v)]
  | kv :: rest, k, v => if kv.1 = k then (k, v) :: rest else kv :: cacheSet rest k v

/-- `ties[k] = true` (set insertion). -/
def tieAdd (t : Ties) (k : CacheKey) : Ties :=
  if k ∈ t then t else t ++ [k]

/-- The merge-sort resumption frame `state.sorter.stack`. -/
structure Frame where
  width : Nat
  i : Nat
  arr : List Nat
  L : List Nat
  R : List Nat
  out : List Nat
  li : Nat
  rj : Nat
deriving Repr, DecidableEq

/-- One undo snapshot, as pushed by `pushUndoSnapshot`: a deep copy of
the frame, cache and tie set.  (The snapshot also copies `mode`,
`active`, `totalComparisons` and the ELO record; during a merge-sort run
those are constant and play no role, so they are omitted here.) -/
structure Snap where
  stack : Option Frame
  cache : Cache
  ties : Ties
deriving Repr, DecidableEq

/-- `MAX_UNDO = 2000; // allow long backtracks`. -/
def MAX_UNDO : Nat := 2000

/-- `pushUndoSnapshot`: push a snapshot, then
`if (undo.length > MAX_UNDO) undo.splice(0, undo.length - MAX_UNDO)`. -/
def pushSnap (undo : List Snap) (s : Snap) : List Snap :=
  let u := undo ++ [s]
  if MAX_UNDO < u.length then u.drop (u.length - MAX_UNDO) else u

/-- The mutable sorter state threaded through `continueSort`. -/
structure MState where
  fr : Frame
  cache : Cache
  ties : Ties
  undo : List Snap
deriving Repr, DecidableEq

/-- `L.splice(k, 1)` followed by `L.push(...)` of the removed element
(the skip rotation); out-of-range `k` removes nothing and pushes
nothing, exactly like the guarded source. -/
def rotateAt (l : List Nat) (k : Nat) : List Nat :=
  if h : k < l.length then l.eraseIdx k ++ [l.get ⟨k, h⟩] else l

/-- Applying a numeric judgment result `res` to the frame:
`if (res >= 0) { out.push(L[li]); li++ } else { out.push(R[rj]); rj++ }`. -/
def applyRes (fr : Frame) (v : Int) : Frame :=
  if 0 ≤ v then { fr with out := fr.out ++ [fr.L.getD fr.li 0], li := fr.li + 1 }
  else { fr with out := fr.out ++ [fr.R.getD fr.rj 0], rj := fr.rj + 1 }

/-- The skip (`res === null`) handling: on a 1-vs-1 remainder treat the
skip as a tie and advance the left element; otherwise rotate both
current elements to the back of their lists. -/
def applySkip (fr : Frame) : Frame :=
  if fr.L.length - fr.li = 1 ∧ fr.R.length - fr.rj = 1 then
    { fr with out := fr.out ++ [fr.L.getD fr.li 0], li := fr.li + 1 }
  else
    { fr with L := rotateAt fr.L fr.li, R := rotateAt fr.R fr.rj }

/-- The reverse-direction value stored by `prefer`'s `finish`:
`val === 1 ? -1 : val === -1 ? 1 : 0`. -/
def invVal (v : Int) : Int := if v = 1 then -1 else if v = -1 then 1 else 0

/-- Recording a non-skip judgment in the cache (both directions) and,
for a tie, in the tie set (both directions) — `makePrefer`'s `finish`. -/
def recordJudgment (c : Cache) (t : Ties) (a b : Nat) (v : Int) : Cache × Ties :=
  let c' := cacheSet (cacheSet c (a, b) v) (b, a) (invVal v)
  let t' := if v = 0 then tieAdd (tieAdd t (a, b)) (b, a) else t
  (c', t')

/-- One judgment interaction for the pair `(a, b)`: push an undo
snapshot (the source pushes before calling `prefer`), then answer from
the cache if the pair was already judged, otherwise consume the next
oracle outcome.  `Sum.inr` signals that the oracle stream is exhausted
(the driver is suspended waiting for the user).  `back` pops the
just-pushed snapshot and restores the one below it (`restoreFromUndo`),
provided at least two snapshots exist. -/
def judge1 (a b : Nat) (s : MState) (outs : List Judgment) :
    (MState × List Judgment) ⊕ MState :=
  let u' := pushSnap s.undo ⟨some s.fr, s.cache, s.ties⟩
  match cacheGet s.cache (a, b) with
  | some v => .inl ({ s with fr := applyRes s.fr v, undo := u' }, outs)
  | none =>
    match outs with
    | [] => .inr { s with undo := u' }
    | o :: rest =>
      match o with
      | .back =>
        if u'.length < 2 then .inl ({ s with undo := u' }, rest)
        else
          let u2 := u'.dropLast
          match u2.getLast? with
          | some sn =>
            .inl ({ fr := sn.stack.getD s.fr, cache := sn.cache,
                    ties := sn.ties, undo := u2 }, rest)
          | none => .inl ({ s with undo := u2 }, rest)
      | .skp => .inl ({ s with fr := applySkip s.fr, undo := u' }, rest)
      | .lft =>
        let ct := recordJudgment s.cache s.ties a b 1
        .inl ({ fr := applyRes s.fr 1, cache := ct.1, ties := ct.2, undo := u' }, rest)
      | .tie =>
        let ct := recordJudgment s.cache s.ties a b 0
        .inl ({ fr := applyRes s.fr 0, cache := ct.1, ties := ct.2, undo := u' }, rest)
      | .rgt =>
        let ct := recordJudgment s.cache s.ties a b (-1)
        .inl ({ fr := applyRes s.fr (-1), cache := ct.1, ties := ct.2, undo := u' }, rest)

/-- The `while (st.width < N)` loop of `continueSort`, flattened into a
fuel-indexed dispatch that re-checks the loop conditions (in source
order) at every step.  `ids` is the set of valid candidate ids (the
key set of `idMap`); `N` is `st.arr.length` as captured on entry.
The nested-loop structure of the source is equivalent: every `continue`
of the source returns to a condition re-check, and the inner merge loop,
odd-tail fast-forward, and append-and-splice phases are guarded by
mutually exclusive conditions on the same frame fields the source
tests.  The one-shot corruption guards of the source (invalid entry in
`L`/`R`, self-match) are re-dispatched here; they behave identically on
any state whose frame holds pairwise-distinct valid ids, and are proved
unreachable below. -/
def csLoop (ids : List Nat) (N : Nat) :
    Nat → MState → List Judgment → MState × List Judgment × Bool
  | 0, s, outs => (s, outs, false)
  | fuel + 1, s, outs =>
    let fr := s.fr
    if N ≤ fr.width then (s, outs, true)
    else if fr.arr.length ≤ fr.i then
      csLoop ids N fuel { s with fr := { fr with width := fr.width * 2, i := 0 } } outs
    else if fr.L.length = 0 ∧ fr.R.length = 0 then
      let arrObjs := fr.arr.filter (fun x => ids.contains x)
      csLoop ids N fuel { s with fr := { fr with
        L := (arrObjs.drop fr.i).take fr.width,
        R := (arrObjs.drop (fr.i + fr.width)).take fr.width,
        out := [], li := 0, rj := 0 } } outs
    else if fr.R.length = 0 then
      csLoop ids N fuel { s with fr := { fr with
        arr := fr.arr.take fr.i ++ fr.L ++ fr.arr.drop (fr.i + fr.L.length),
        L := [], R := [], out := [], li := 0, rj := 0,
        i := fr.i + 2 * fr.width } } outs
    else if fr.li < fr.L.length ∧ fr.rj < fr.R.length then
      let a := fr.L.getD fr.li 0
      if ids.contains a = false then
        csLoop ids N fuel { s with fr := { fr with li := fr.li + 1 } } outs
      else
        let b := fr.R.getD fr.rj 0
        if ids.contains b = false then
          csLoop ids N fuel { s with fr := { fr with rj := fr.rj + 1 } } outs
        else
          let step :=
            if a = b then
              if fr.R.length ≤ fr.rj + 1 then
                Sum.inl ({ s with fr := { fr with rj := fr.rj + 1 } }, outs)
              else
                judge1 a (fr.R.getD (fr.rj + 1) 0)
                  { s with fr := { fr with rj := fr.rj + 1 } } outs
            else judge1 a b s outs
          match step with
          | .inl (s', outs') => csLoop ids N fuel s' outs'
          | .inr s' => (s', outs, false)
    else
      let out' := fr.out ++ fr.L.drop fr.li ++ fr.R.drop fr.rj
      csLoop ids N fuel { s with fr := { fr with
        arr := fr.arr.take fr.i ++ out' ++ fr.arr.drop (fr.i + out'.length),
        L := [], R := [], out := [], li := 0, rj := 0,
        i := fr.i + 2 * fr.width } } outs

/-- The frame seeded by `initSort`. -/
def initFrame (ids : List Nat) : Frame :=
  { width := 1, i := 0, arr := ids, L := [], R := [], out := [], li := 0, rj := 0 }

/-- `initSort` on a fresh session (`startSorting` resets the sorter to
`defaultState()`, so the cache, tie set and undo stack start empty;
`initSort` then pushes the initial snapshot). -/
def initMState (ids : List Nat) : MState :=
  let fr := initFrame ids
  { fr := fr, cache := [], ties := [], undo := pushSnap [] ⟨some fr, [], []⟩ }

/-- A fresh merge-sort run: `initSort(ids)` followed by `continueSort`
with `N = st.arr.length`, driven by the oracle stream `outs`. -/
def runMergeSort (ids : List Nat) (fuel : Nat) (outs : List Judgment) :
    MState × List Judgment × Bool :=
  csLoop ids ids.length fuel (initMState ids) outs

/-- The final ranking (`objsOf(st.arr, idMap)`) of a completed run;
`none` while suspended or out of fuel, and on the empty input
(`initSort` throws `'No items to sort'`). -/
def mergeSortResult (ids : List Nat) (fuel : Nat) (outs : List Judgment) :
    Option (List Nat) :=
  if ids = [] then none
  else
    match runMergeSort ids fuel outs with
    | (s, _, true) => some (s.fr.arr.filter (fun x => ids.contains x))
    | _ => none

/-- `countUniqueCachePairs`: the number of distinct unordered pairs
among the cache keys (the source canonicalises each key `"a|b"` by
string comparison of the two ids; any canonical form gives the same
count, and we order by `<` on the modelled ids). -/
def canonPair (k : CacheKey) : CacheKey := if k.1 < k.2 then k else (k.2, k.1)

/-- See `canonPair`; `Object.keys` yields each key once. -/
def countUniqueCachePairs (c : Cache) : Nat :=
  ((c.map (fun kv => kv.1)).map canonPair).dedup.length

/-- `totalComparisonUpperBound(n) = n ≤ 1 ? 0 :
n * ceil(log2 n) - (2^ceil(log2 n) - 1)`. -/
def totalComparisonUpperBound (n : Nat) : Nat :=
  if n ≤ 1 then 0
  else
    let h := ceilLog2 n
    n * h - (2 ^ h - 1)

/-! ## Invariants of the merge-sort driver -/

/-- The length of the `arr` segment the current merge block covers:
`out.length + (L.length - li) + (R.length - rj)` (the source's `segLen`
computed at splice time, generalised to mid-merge states). -/
def segEnd (fr : Frame) : Nat :=
  fr.out.length + (fr.L.length - fr.li) + (fr.R.length - fr.rj)

/-- Frame invariant: `arr` is a permutation of the candidate ids, the
merge cursors are in range, the multiset of not-yet-spliced block
elements (`out` plus the unconsumed tails of `L` and `R`) matches the
`arr` segment starting at `i`, and outside a merge (`R = []`) the block
state is reset. -/
def FInv (ids : List Nat) (fr : Frame) : Prop :=
  fr.arr.Perm ids ∧
  fr.li ≤ fr.L.length ∧ fr.rj ≤ fr.R.length ∧
  (fr.out ++ fr.L.drop fr.li ++ fr.R.drop fr.rj).Perm
    ((fr.arr.drop fr.i).take (segEnd fr)) ∧
  (fr.R = [] → fr.out = [] ∧ fr.li = 0 ∧ fr.rj = 0)

/-- The three values `prefer` can store. -/
def CVal (v : Int) : Prop := v = 1 ∨ v = 0 ∨ v = -1

/-- Symmetry of one cache entry: the swapped key is mapped to the
inverse value, and a tie is recorded in the tie set both ways. -/
def CacheSymmAt (c : Cache) (t : Ties) (kv : CacheKey × Int) : Prop :=
  cacheGet c (kv.1.2, kv.1.1) = some (invVal kv.2) ∧
  (kv.2 = 0 → (kv.1.1, kv.1.2) ∈ t ∧ (kv.1.2, kv.1.1) ∈ t)

/-- Cache/tie-set symmetry (claim C6), as a statement over all stored
entries. -/
def CacheSymm (c : Cache) (t : Ties) : Prop := ∀ kv ∈ c, CacheSymmAt c t kv

/-- Cache invariant: keys are unique, every key is an ordered pair of
two distinct candidate ids, values are in `{1, 0, -1}`, and the cache is
symmetric. -/
def CInv (ids : List Nat) (c : Cache) (t : Ties) : Prop :=
  (c.map (fun kv => kv.1)).Nodup ∧
  (∀ kv ∈ c, kv.1.1 ∈ ids ∧ kv.1.2 ∈ ids ∧ kv.1.1 ≠ kv.1.2 ∧ CVal kv.2) ∧
  CacheSymm c t

/-- Snapshot invariant: the captured frame (when present), cache and tie
set satisfy the frame and cache invariants. -/
def SnapInv (ids : List Nat) (sn : Snap) : Prop :=
  (∀ f, sn.stack = some f → FInv ids f) ∧ CInv ids sn.cache sn.ties

/-- Global invariant of a merge-sort driver state. -/
def GInv (ids : List Nat) (s : MState) : Prop :=
  FInv ids s.fr ∧ CInv ids s.cache s.ties ∧ ∀ sn ∈ s.undo, SnapInv ids sn

/-! ### List bookkeeping lemmas -/

theorem take_slice_decomp (l : List Nat) (i m : Nat) :
    l = l.take i ++ ((l.drop i).take m ++ l.drop (i + m)) := by
  conv_lhs => rw [← List.take_append_drop i l]
  congr 1
  conv_lhs => rw [← List.take_append_drop m (l.drop i)]
  rw [List.drop_drop]

theorem perm_splice {l seg : List Nat} (i : Nat)
    (h : seg.Perm ((l.drop i).take seg.length)) :
    (l.take i ++ seg ++ l.drop (i + seg.length)).Perm l := by
  conv_rhs => rw [take_slice_decomp l i seg.length]
  rw [List.append_assoc]
  exact List.Perm.append_left _ (h.append_right _)

theorem drop_eq_get_cons {l : List Nat} {k : Nat} (h : k < l.length) :
    l.drop k = l.get ⟨k, h⟩ :: l.drop (k + 1) :=
  (List.get_cons_drop l ⟨k, h⟩).symm

theorem rotateAt_length {l : List Nat} {k : Nat} (h : k < l.length) :
    (rotateAt l k).length = l.length := by
  rw [rotateAt, dif_pos h]
  simp [List.length_eraseIdx, h]
  omega

theorem rotateAt_drop_perm {l : List Nat} {k : Nat} (h : k < l.length) :
    ((rotateAt l k).drop k).Perm (l.drop k) := by
  rw [rotateAt, dif_pos h, List.eraseIdx_eq_take_drop_succ, List.append_assoc,
    List.drop_left' (by simp [List.length_take]; omega)]
  rw [drop_eq_get_cons h]
  exact List.perm_append_singleton _ _

theorem getD_eq_get {l : List Nat} {k : Nat} (h : k < l.length) :
    l.getD k 0 = l.get ⟨k, h⟩ := by
  simp [List.getD_eq_getElem?_getD, List.getElem?_eq_getElem h, List.get_eq_getElem]

/-! ### Frame invariant preservation, branch by branch -/

theorem FInv_widthDouble {ids : List Nat} {fr : Frame} (h : FInv ids fr)
    (hc : fr.arr.length ≤ fr.i) :
    FInv ids { fr with width := fr.width * 2, i := 0 } := by
  obtain ⟨ha, hli, hrj, hcoh, hreset⟩ := h
  have hdrop : fr.arr.drop fr.i = [] := List.drop_eq_nil_of_le hc
  rw [hdrop] at hcoh
  simp only [List.take_nil] at hcoh
  have hnil := hcoh.eq_nil
  obtain ⟨h12, hR⟩ := List.append_eq_nil.mp hnil
  obtain ⟨hout, hL⟩ := List.append_eq_nil.mp h12
  refine ⟨ha, hli, hrj, ?_, hreset⟩
  show (fr.out ++ fr.L.drop fr.li ++ fr.R.drop fr.rj).Perm
    ((fr.arr.drop 0).take
      (fr.out.length + (fr.L.length - fr.li) + (fr.R.length - fr.rj)))
  have h1 : fr.L.length ≤ fr.li := List.drop_eq_nil_iff.mp hL
  have h2 : fr.R.length ≤ fr.rj := List.drop_eq_nil_iff.mp hR
  have hse : fr.out.length + (fr.L.length - fr.li) + (fr.R.length - fr.rj) = 0 := by
    simp [hout]
    omega
  rw [hnil, hse, List.take_zero]

theorem take_take_append (d : List Nat) (w : Nat) :
    d.take w ++ (d.drop w).take w =
      d.take ((d.take w).length + ((d.drop w).take w).length) := by
  rcases le_or_lt w d.length with hw | hw
  · have hA : (d.take w).length = w := by
      simp [List.length_take]
      omega
    rw [hA, List.take_add]
    congr 1
    apply List.take_eq_take.mpr
    simp [List.length_take, List.length_drop]
  · have hdnil : d.drop w = [] := List.drop_eq_nil_of_le (by omega)
    have hA : (d.take w).length = d.length := by
      simp [List.length_take]
      omega
    rw [hdnil, List.take_nil, List.append_nil, hA, List.length_nil, Nat.add_zero,
      List.take_length]
    exact List.take_of_length_le (by omega)

theorem FInv_prepare {ids : List Nat} {fr : Frame} (h : FInv ids fr) :
    FInv ids { fr with
      L := (((fr.arr.filter (fun x => ids.contains x)).drop fr.i).take fr.width),
      R := (((fr.arr.filter (fun x => ids.contains x)).drop (fr.i + fr.width)).take fr.width),
      out := [], li := 0, rj := 0 } := by
  obtain ⟨ha, hli, hrj, hcoh, hreset⟩ := h
  have hfilter : fr.arr.filter (fun x => ids.contains x) = fr.arr := by
    rw [List.filter_eq_self]
    intro x hx
    have hm : x ∈ ids := ha.mem_iff.mp hx
    exact List.elem_eq_true_of_mem hm
  rw [hfilter]
  have hdw : fr.arr.drop (fr.i + fr.width) = (fr.arr.drop fr.i).drop fr.width := by
    rw [List.drop_drop]
  refine ⟨ha, Nat.zero_le _, Nat.zero_le _, ?_, fun _ => ⟨rfl, rfl, rfl⟩⟩
  show ((([] : List Nat) ++ (((fr.arr.drop fr.i).take fr.width).drop 0)) ++
      (((fr.arr.drop (fr.i + fr.width)).take fr.width).drop 0)).Perm
    ((fr.arr.drop fr.i).take
      (([] : List Nat).length + (((fr.arr.drop fr.i).take fr.width).length - 0) +
        (((fr.arr.drop (fr.i + fr.width)).take fr.width).length - 0)))
  simp only [List.drop_zero, List.nil_append, Nat.sub_zero, List.length_nil,
    Nat.zero_add]
  rw [hdw, take_take_append]

theorem FInv_fastForward {ids : List Nat} {fr : Frame} (h : FInv ids fr)
    (hR : fr.R = []) :
    FInv ids { fr with
      arr := fr.arr.take fr.i ++ fr.L ++ fr.arr.drop (fr.i + fr.L.length),
      L := [], R := [], out := [], li := 0, rj := 0,
      i := fr.i + 2 * fr.width } := by
  obtain ⟨ha, hli, hrj, hcoh, hreset⟩ := h
  obtain ⟨hout, hli0, hrj0⟩ := hreset hR
  rw [hout, hli0, hrj0, hR] at hcoh
  simp only [List.drop_zero, List.drop_nil, List.nil_append, List.append_nil] at hcoh
  have hse : segEnd fr = fr.L.length := by
    simp [segEnd, hout, hli0, hrj0, hR]
  rw [hse] at hcoh
  have harr' : (fr.arr.take fr.i ++ fr.L ++ fr.arr.drop (fr.i + fr.L.length)).Perm fr.arr :=
    perm_splice fr.i hcoh
  refine ⟨harr'.trans ha, by simp, by simp, ?_, fun _ => ⟨rfl, rfl, rfl⟩⟩
  simp [segEnd]

theorem FInv_appendSplice {ids : List Nat} {fr : Frame} (h : FInv ids fr) :
    FInv ids { fr with
      arr := fr.arr.take fr.i ++ (fr.out ++ fr.L.drop fr.li ++ fr.R.drop fr.rj) ++
        fr.arr.drop (fr.i + (fr.out ++ fr.L.drop fr.li ++ fr.R.drop fr.rj).length),
      L := [], R := [], out := [], li := 0, rj := 0,
      i := fr.i + 2 * fr.width } := by
  obtain ⟨ha, hli, hrj, hcoh, hreset⟩ := h
  have hlen : (fr.out ++ fr.L.drop fr.li ++ fr.R.drop fr.rj).length = segEnd fr := by
    simp [segEnd]
    omega
  have hcoh' : (fr.out ++ fr.L.drop fr.li ++ fr.R.drop fr.rj).Perm
      ((fr.arr.drop fr.i).take (fr.out ++ fr.L.drop fr.li ++ fr.R.drop fr.rj).length) := by
    rw [hlen]
    exact hcoh
  have harr' := perm_splice fr.i hcoh'
  refine ⟨harr'.trans ha, by simp, by simp, ?_, fun _ => ⟨rfl, rfl, rfl⟩⟩
  simp [segEnd]

/-! ### Cache lemmas -/

theorem recordJudgment_cache (c : Cache) (t : Ties) (a b : Nat) (v : Int) :
    (recordJudgment c t a b v).1 =
      cacheSet (cacheSet c (a, b) v) (b, a) (invVal v) := rfl

theorem recordJudgment_ties (c : Cache) (t : Ties) (a b : Nat) (v : Int) :
    (recordJudgment c t a b v).2 =
      if v = 0 then tieAdd (tieAdd t (a, b)) (b, a) else t := rfl

theorem cacheGet_set (c : Cache) (k : CacheKey) (v : Int) (k' : CacheKey) :
    cacheGet (cacheSet c k v) k' = if k' = k then some v else cacheGet c k' := by
  induction c with
  | nil =>
    by_cases h : k' = k
    · simp [cacheSet, cacheGet, h]
    · have h' : ¬ k = k' := fun hh => h hh.symm
      simp [cacheSet, cacheGet, h, h']
  | cons kv rest ih =>
    by_cases h1 : kv.1 = k
    · by_cases h2 : k' = k
      · simp [cacheSet, cacheGet, h1, h2]
      · have h3 : ¬ k = k' := fun hh => h2 hh.symm
        simp [cacheSet, cacheGet, h1, h2, h3]
    · by_cases h2 : kv.1 = k'
      · have h3 : ¬ k' = k := fun hh => h1 (h2.trans hh)
        simp [cacheSet, cacheGet, h1, h2, h3]
      · simp [cacheSet, cacheGet, h1, h2, ih]

theorem cacheSet_keys (c : Cache) (k : CacheKey) (v : Int) :
    (cacheSet c k v).map (fun kv => kv.1) =
      if k ∈ c.map (fun kv => kv.1) then c.map (fun kv => kv.1)
      else c.map (fun kv => kv.1) ++ [k] := by
  induction c with
  | nil => simp [cacheSet]
  | cons kv rest ih =>
    by_cases h1 : kv.1 = k
    · simp [cacheSet, h1]
    · have h1' : ¬ k = kv.1 := fun hh => h1 hh.symm
      by_cases h2 : k ∈ rest.map (fun kv => kv.1)
      · simp [cacheSet, h1, h1', h2, ih]
      · simp [cacheSet, h1, h1', h2, ih]

theorem cacheSet_keys_nodup {c : Cache} {k : CacheKey} {v : Int}
    (h : (c.map (fun kv => kv.1)).Nodup) :
    ((cacheSet c k v).map (fun kv => kv.1)).Nodup := by
  rw [cacheSet_keys]
  by_cases hk : k ∈ c.map (fun kv => kv.1)
  · simpa [hk] using h
  · rw [if_neg hk, List.nodup_append]
    refine ⟨h, List.nodup_singleton _, ?_⟩
    intro x hx hx2
    rw [List.mem_singleton] at hx2
    subst hx2
    exact hk hx

theorem mem_cacheSet {c : Cache} {k : CacheKey} {v : Int} {kv' : CacheKey × Int}
    (hnd : (c.map (fun kv => kv.1)).Nodup) (hm : kv' ∈ cacheSet c k v) :
    kv' = (k, v) ∨ (kv' ∈ c ∧ kv'.1 ≠ k) := by
  induction c with
  | nil =>
    simp only [cacheSet, List.mem_singleton] at hm
    exact Or.inl hm
  | cons kv rest ih =>
    simp only [List.map_cons, List.nodup_cons] at hnd
    simp only [cacheSet] at hm
    by_cases h1 : kv.1 = k
    · rw [if_pos h1] at hm
      rcases List.mem_cons.mp hm with h | h
      · exact Or.inl h
      · refine Or.inr ⟨List.mem_cons_of_mem _ h, fun hk => ?_⟩
        apply hnd.1
        rw [h1, ← hk]
        exact List.mem_map_of_mem _ h
    · rw [if_neg h1] at hm
      rcases List.mem_cons.mp hm with h | h
      · subst h
        exact Or.inr ⟨List.mem_cons_self _ _, h1⟩
      · rcases ih hnd.2 h with h' | h'
        · exact Or.inl h'
        · exact Or.inr ⟨List.mem_cons_of_mem _ h'.1, h'.2⟩

theorem mem_tieAdd {t : Ties} {k k' : CacheKey} :
    k' ∈ tieAdd t k ↔ k' ∈ t ∨ k' = k := by
  unfold tieAdd
  by_cases h : k ∈ t
  · simp only [if_pos h]
    constructor
    · exact Or.inl
    · rintro (hh | rfl)
      · exact hh
      · exact h
  · simp [if_neg h]

theorem invVal_invVal {v : Int} (h : CVal v) : invVal (invVal v) = v := by
  rcases h with rfl | rfl | rfl <;> simp [invVal]

theorem invVal_eq_zero {v : Int} (h : CVal v) : invVal v = 0 ↔ v = 0 := by
  rcases h with rfl | rfl | rfl <;> simp [invVal]

theorem CVal_invVal {v : Int} (h : CVal v) : CVal (invVal v) := by
  rcases h with rfl | rfl | rfl <;> simp [invVal, CVal]

theorem CInv_record {ids : List Nat} {c : Cache} {t : Ties} {a b : Nat} {v : Int}
    (h : CInv ids c t) (ha : a ∈ ids) (hb : b ∈ ids) (hab : a ≠ b) (hv : CVal v) :
    CInv ids (recordJudgment c t a b v).1 (recordJudgment c t a b v).2 := by
  obtain ⟨hnd, hmem, hsym⟩ := h
  have hab' : ((a : Nat), b) ≠ ((b : Nat), a) := fun hh => hab (congrArg Prod.fst hh)
  have hnd1 : ((cacheSet c (a, b) v).map (fun kv => kv.1)).Nodup :=
    cacheSet_keys_nodup hnd
  have hnd2 : (((recordJudgment c t a b v).1).map (fun kv => kv.1)).Nodup := by
    rw [recordJudgment_cache]
    exact cacheSet_keys_nodup hnd1
  have hget : ∀ k', cacheGet (recordJudgment c t a b v).1 k' =
      if k' = (b, a) then some (invVal v)
      else if k' = (a, b) then some v else cacheGet c k' := by
    intro k'
    rw [recordJudgment_cache, cacheGet_set, cacheGet_set]
  have htmem : ∀ k', k' ∈ t → k' ∈ (recordJudgment c t a b v).2 := by
    intro k' hk
    rw [recordJudgment_ties]
    by_cases h0 : v = 0
    · rw [if_pos h0]
      exact mem_tieAdd.mpr (Or.inl (mem_tieAdd.mpr (Or.inl hk)))
    · rw [if_neg h0]
      exact hk
  have htab : v = 0 → ((a : Nat), b) ∈ (recordJudgment c t a b v).2 := by
    intro h0
    rw [recordJudgment_ties, if_pos h0]
    exact mem_tieAdd.mpr (Or.inl (mem_tieAdd.mpr (Or.inr rfl)))
  have htba : v = 0 → ((b : Nat), a) ∈ (recordJudgment c t a b v).2 := by
    intro h0
    rw [recordJudgment_ties, if_pos h0]
    exact mem_tieAdd.mpr (Or.inr rfl)
  refine ⟨hnd2, ?_, ?_⟩
  · intro kv hkv
    rw [recordJudgment_cache] at hkv
    rcases mem_cacheSet hnd1 hkv with rfl | ⟨hkv1, hne1⟩
    · exact ⟨hb, ha, fun hh => hab hh.symm, CVal_invVal hv⟩
    · rcases mem_cacheSet hnd hkv1 with rfl | ⟨hkv2, hne2⟩
      · exact ⟨ha, hb, hab, hv⟩
      · exact hmem _ hkv2
  · intro kv hkv
    rw [recordJudgment_cache] at hkv
    rcases mem_cacheSet hnd1 hkv with rfl | ⟨hkv1, hne1⟩
    · constructor
      · show cacheGet (recordJudgment c t a b v).1 ((a : Nat), b) =
          some (invVal (invVal v))
        rw [hget, if_neg hab', if_pos rfl, invVal_invVal hv]
      · intro h0
        have hv0 : v = 0 := (invVal_eq_zero hv).mp h0
        exact ⟨htba hv0, htab hv0⟩
    · rcases mem_cacheSet hnd hkv1 with rfl | ⟨hkv2, hne2⟩
      · constructor
        · show cacheGet (recordJudgment c t a b v).1 ((b : Nat), a) = some (invVal v)
          rw [hget, if_pos rfl]
        · intro h0
          exact ⟨htab h0, htba h0⟩
      · have hs := hsym _ hkv2
        constructor
        · have hx1 : (kv.1.2, kv.1.1) ≠ ((b : Nat), a) := by
            intro hh
            apply hne2
            have e1 : kv.1.2 = b := congrArg Prod.fst hh
            have e2 : kv.1.1 = a := congrArg Prod.snd hh
            have e3 : kv.1 = (kv.1.1, kv.1.2) := rfl
            rw [e3, e1, e2]
          have hx2 : (kv.1.2, kv.1.1) ≠ ((a : Nat), b) := by
            intro hh
            apply hne1
            have e1 : kv.1.2 = a := congrArg Prod.fst hh
            have e2 : kv.1.1 = b := congrArg Prod.snd hh
            have e3 : kv.1 = (kv.1.1, kv.1.2) := rfl
            rw [e3, e1, e2]
          rw [hget, if_neg hx1, if_neg hx2]
          exact hs.1
        · intro h0
          obtain ⟨ht1, ht2⟩ := hs.2 h0
          exact ⟨htmem _ ht1, htmem _ ht2⟩

/-! ### Judgment-step lemmas -/

theorem merge_pair_facts {ids : List Nat} {fr : Frame} (hnd : ids.Nodup)
    (h : FInv ids fr) (hli : fr.li < fr.L.length) (hrj : fr.rj < fr.R.length) :
    fr.L.get ⟨fr.li, hli⟩ ∈ ids ∧ fr.R.get ⟨fr.rj, hrj⟩ ∈ ids ∧
      fr.L.get ⟨fr.li, hli⟩ ≠ fr.R.get ⟨fr.rj, hrj⟩ := by
  obtain ⟨ha, hli', hrj', hcoh, hreset⟩ := h
  have harrnd : fr.arr.Nodup := ha.symm.nodup hnd
  have hslice : ((fr.arr.drop fr.i).take (segEnd fr)).Nodup :=
    ((List.take_sublist _ _).trans (List.drop_sublist _ _)).nodup harrnd
  have hblock : (fr.out ++ fr.L.drop fr.li ++ fr.R.drop fr.rj).Nodup :=
    hcoh.symm.nodup hslice
  have haL : fr.L.get ⟨fr.li, hli⟩ ∈ fr.L.drop fr.li := by
    rw [drop_eq_get_cons hli]
    exact List.mem_cons_self _ _
  have hbR : fr.R.get ⟨fr.rj, hrj⟩ ∈ fr.R.drop fr.rj := by
    rw [drop_eq_get_cons hrj]
    exact List.mem_cons_self _ _
  have hmem_block : ∀ x, x ∈ fr.out ++ fr.L.drop fr.li ++ fr.R.drop fr.rj → x ∈ ids := by
    intro x hx
    have hx2 : x ∈ (fr.arr.drop fr.i).take (segEnd fr) := hcoh.mem_iff.mp hx
    have hx3 : x ∈ fr.arr := List.mem_of_mem_drop (List.mem_of_mem_take hx2)
    exact ha.mem_iff.mp hx3
  refine ⟨?_, ?_, ?_⟩
  · exact hmem_block _ (List.mem_append_left _ (List.mem_append_right _ haL))
  · exact hmem_block _ (List.mem_append_right _ hbR)
  · intro heq
    have hdisj := List.disjoint_of_nodup_append hblock
    exact hdisj (List.mem_append_right _ haL) (heq ▸ hbR)

theorem FInv_emitLeft {ids : List Nat} {fr : Frame} (h : FInv ids fr)
    (hli : fr.li < fr.L.length) (hrj : fr.rj < fr.R.length) :
    FInv ids { fr with out := fr.out ++ [fr.L.getD fr.li 0], li := fr.li + 1 } := by
  obtain ⟨ha, hli', hrj', hcoh, hreset⟩ := h
  refine ⟨ha, show fr.li + 1 ≤ fr.L.length by omega, hrj', ?_, ?_⟩
  · show ((fr.out ++ [fr.L.getD fr.li 0]) ++ fr.L.drop (fr.li + 1) ++
        fr.R.drop fr.rj).Perm
      ((fr.arr.drop fr.i).take ((fr.out ++ [fr.L.getD fr.li 0]).length +
        (fr.L.length - (fr.li + 1)) + (fr.R.length - fr.rj)))
    have hnum : (fr.out ++ [fr.L.getD fr.li 0]).length + (fr.L.length - (fr.li + 1)) +
        (fr.R.length - fr.rj) = segEnd fr := by
      simp [segEnd]
      omega
    rw [hnum, getD_eq_get hli, List.append_assoc fr.out, List.singleton_append,
      ← drop_eq_get_cons hli]
    exact hcoh
  · intro hR
    exfalso
    have hR' : fr.R = [] := hR
    rw [hR'] at hrj
    simp at hrj

theorem FInv_emitRight {ids : List Nat} {fr : Frame} (h : FInv ids fr)
    (hli : fr.li < fr.L.length) (hrj : fr.rj < fr.R.length) :
    FInv ids { fr with out := fr.out ++ [fr.R.getD fr.rj 0], rj := fr.rj + 1 } := by
  obtain ⟨ha, hli', hrj', hcoh, hreset⟩ := h
  refine ⟨ha, hli', show fr.rj + 1 ≤ fr.R.length by omega, ?_, ?_⟩
  · show ((fr.out ++ [fr.R.getD fr.rj 0]) ++ fr.L.drop fr.li ++
        fr.R.drop (fr.rj + 1)).Perm
      ((fr.arr.drop fr.i).take ((fr.out ++ [fr.R.getD fr.rj 0]).length +
        (fr.L.length - fr.li) + (fr.R.length - (fr.rj + 1))))
    have hnum : (fr.out ++ [fr.R.getD fr.rj 0]).length + (fr.L.length - fr.li) +
        (fr.R.length - (fr.rj + 1)) = segEnd fr := by
      simp [segEnd]
      omega
    rw [hnum, getD_eq_get hrj]
    have e1 : (fr.out ++ [fr.R.get ⟨fr.rj, hrj⟩]) ++ fr.L.drop fr.li ++
        fr.R.drop (fr.rj + 1) =
        fr.out ++ (fr.R.get ⟨fr.rj, hrj⟩ :: (fr.L.drop fr.li ++ fr.R.drop (fr.rj + 1))) := by
      simp [List.append_assoc]
    have e2 : fr.out ++ fr.L.drop fr.li ++ fr.R.drop fr.rj =
        fr.out ++ (fr.L.drop fr.li ++ fr.R.get ⟨fr.rj, hrj⟩ :: fr.R.drop (fr.rj + 1)) := by
      rw [← drop_eq_get_cons hrj]
      simp [List.append_assoc]
    rw [e1]
    rw [e2] at hcoh
    exact (List.Perm.append_left fr.out List.perm_middle.symm).trans hcoh
  · intro hR
    exfalso
    have hR' : fr.R = [] := hR
    rw [hR'] at hrj
    simp at hrj

theorem FInv_applyRes {ids : List Nat} {fr : Frame} (h : FInv ids fr)
    (hli : fr.li < fr.L.length) (hrj : fr.rj < fr.R.length) (v : Int) :
    FInv ids (applyRes fr v) := by
  unfold applyRes
  by_cases hv : 0 ≤ v
  · rw [if_pos hv]
    exact FInv_emitLeft h hli hrj
  · rw [if_neg hv]
    exact FInv_emitRight h hli hrj

theorem FInv_applySkip {ids : List Nat} {fr : Frame} (h : FInv ids fr)
    (hli : fr.li < fr.L.length) (hrj : fr.rj < fr.R.length) :
    FInv ids (applySkip fr) := by
  unfold applySkip
  by_cases hc : fr.L.length - fr.li = 1 ∧ fr.R.length - fr.rj = 1
  · rw [if_pos hc]
    exact FInv_emitLeft h hli hrj
  · rw [if_neg hc]
    obtain ⟨ha, hli', hrj', hcoh, hreset⟩ := h
    refine ⟨ha, ?_, ?_, ?_, ?_⟩
    · rw [rotateAt_length hli]
      exact hli'
    · rw [rotateAt_length hrj]
      exact hrj'
    · show (fr.out ++ (rotateAt fr.L fr.li).drop fr.li ++
          (rotateAt fr.R fr.rj).drop fr.rj).Perm
        ((fr.arr.drop fr.i).take (fr.out.length +
          ((rotateAt fr.L fr.li).length - fr.li) +
          ((rotateAt fr.R fr.rj).length - fr.rj)))
      have hnum : fr.out.length + ((rotateAt fr.L fr.li).length - fr.li) +
          ((rotateAt fr.R fr.rj).length - fr.rj) = segEnd fr := by
        rw [rotateAt_length hli, rotateAt_length hrj]
        simp [segEnd]
      rw [hnum]
      have e1 : fr.out ++ (rotateAt fr.L fr.li).drop fr.li ++
          (rotateAt fr.R fr.rj).drop fr.rj =
          fr.out ++ ((rotateAt fr.L fr.li).drop fr.li ++
            (rotateAt fr.R fr.rj).drop fr.rj) := by
        rw [List.append_assoc]
      have e2 : fr.out ++ fr.L.drop fr.li ++ fr.R.drop fr.rj =
          fr.out ++ (fr.L.drop fr.li ++ fr.R.drop fr.rj) := by
        rw [List.append_assoc]
      rw [e1]
      rw [e2] at hcoh
      exact (List.Perm.append_left _
        ((rotateAt_drop_perm hli).append (rotateAt_drop_perm hrj))).trans hcoh
    · intro hR
      exfalso
      have hR' : rotateAt fr.R fr.rj = [] := hR
      have hl := rotateAt_length hrj
      rw [hR'] at hl
      simp at hl
      omega

theorem mem_pushSnap {u : List Snap} {s sn : Snap} (h : sn ∈ pushSnap u s) :
    sn ∈ u ∨ sn = s := by
  unfold pushSnap at h
  have h' : sn ∈ u ++ [s] := by
    by_cases hc : MAX_UNDO < (u ++ [s]).length
    · rw [if_pos hc] at h
      exact List.drop_subset _ _ h
    · rwa [if_neg hc] at h
  rcases List.mem_append.mp h' with h1 | h1
  · exact Or.inl h1
  · exact Or.inr (List.mem_singleton.mp h1)

theorem GInv_judge1 {ids : List Nat} {s : MState} {a b : Nat} {outs : List Judgment}
    (hG : GInv ids s) (hli : s.fr.li < s.fr.L.length) (hrj : s.fr.rj < s.fr.R.length)
    (ha : a ∈ ids) (hb : b ∈ ids) (hab : a ≠ b) :
    (match judge1 a b s outs with
     | .inl (s', _) => GInv ids s'
     | .inr s' => GInv ids s') := by
  obtain ⟨hF, hC, hU⟩ := hG
  have hU' : ∀ sn ∈ pushSnap s.undo ⟨some s.fr, s.cache, s.ties⟩, SnapInv ids sn := by
    intro sn hsn
    rcases mem_pushSnap hsn with hmem | rfl
    · exact hU _ hmem
    · exact ⟨fun f hf => by rw [Option.some.injEq] at hf; rw [← hf]; exact hF, hC⟩
  unfold judge1
  cases hc : cacheGet s.cache (a, b) with
  | some v => exact ⟨FInv_applyRes hF hli hrj v, hC, hU'⟩
  | none =>
    cases outs with
    | nil => exact ⟨hF, hC, hU'⟩
    | cons o rest =>
      cases o with
      | back =>
        dsimp only
        by_cases hlen : (pushSnap s.undo ⟨some s.fr, s.cache, s.ties⟩).length < 2
        · rw [if_pos hlen]
          exact ⟨hF, hC, hU'⟩
        · rw [if_neg hlen]
          have hsub : ∀ sn' ∈ (pushSnap s.undo ⟨some s.fr, s.cache, s.ties⟩).dropLast,
              SnapInv ids sn' := by
            intro sn' hsn'
            exact hU' _ ((List.dropLast_sublist _).subset hsn')
          cases hgl : (pushSnap s.undo ⟨some s.fr, s.cache, s.ties⟩).dropLast.getLast? with
          | none => exact ⟨hF, hC, hsub⟩
          | some sn =>
            have hsi : SnapInv ids sn := hsub _ (List.mem_of_mem_getLast? hgl)
            refine ⟨?_, hsi.2, hsub⟩
            cases hst : sn.stack with
            | none =>
              show FInv ids (Option.getD none s.fr)
              exact hF
            | some f =>
              show FInv ids (Option.getD (some f) s.fr)
              exact hsi.1 f hst
      | skp => exact ⟨FInv_applySkip hF hli hrj, hC, hU'⟩
      | lft =>
        exact ⟨FInv_applyRes hF hli hrj 1,
          CInv_record hC ha hb hab (Or.inl rfl), hU'⟩
      | tie =>
        exact ⟨FInv_applyRes hF hli hrj 0,
          CInv_record hC ha hb hab (Or.inr (Or.inl rfl)), hU'⟩
      | rgt =>
        exact ⟨FInv_applyRes hF hli hrj (-1),
          CInv_record hC ha hb hab (Or.inr (Or.inr rfl)), hU'⟩

/-! ### The driver loop preserves the global invariant -/

theorem GInv_init (ids : List Nat) : GInv ids (initMState ids) := by
  have hF : FInv ids (initFrame ids) := by
    refine ⟨List.Perm.refl _, Nat.le_refl _, Nat.le_refl _, ?_, fun _ => ⟨rfl, rfl, rfl⟩⟩
    simp [initFrame, segEnd]
  have hC : CInv ids [] [] := by
    refine ⟨List.nodup_nil, by simp, ?_⟩
    intro kv hkv
    simp at hkv
  refine ⟨hF, hC, ?_⟩
  intro sn hsn
  have hsn' : sn ∈ pushSnap [] ⟨some (initFrame ids), [], []⟩ := hsn
  rcases mem_pushSnap hsn' with hmem | rfl
  · simp at hmem
  · exact ⟨fun f hf => by rw [Option.some.injEq] at hf; rw [← hf]; exact hF, hC⟩

theorem csLoop_GInv (ids : List Nat) (hnd : ids.Nodup) (N : Nat) :
    ∀ fuel s outs, GInv ids s → GInv ids (csLoop ids N fuel s outs).1 := by
  intro fuel
  induction fuel with
  | zero =>
    intro s outs h
    exact h
  | succ n ih =>
    intro s outs h
    rw [csLoop]
    by_cases h1 : N ≤ s.fr.width
    · rw [if_pos h1]
      exact h
    rw [if_neg h1]
    by_cases h2 : s.fr.arr.length ≤ s.fr.i
    · rw [if_pos h2]
      exact ih _ _ ⟨FInv_widthDouble h.1 h2, h.2.1, h.2.2⟩
    rw [if_neg h2]
    by_cases h3 : s.fr.L.length = 0 ∧ s.fr.R.length = 0
    · rw [if_pos h3]
      exact ih _ _ ⟨FInv_prepare h.1, h.2.1, h.2.2⟩
    rw [if_neg h3]
    by_cases h4 : s.fr.R.length = 0
    · rw [if_pos h4]
      exact ih _ _ ⟨FInv_fastForward h.1 (List.length_eq_zero.mp h4), h.2.1, h.2.2⟩
    rw [if_neg h4]
    by_cases h5 : s.fr.li < s.fr.L.length ∧ s.fr.rj < s.fr.R.length
    · rw [if_pos h5]
      obtain ⟨hli, hrj⟩ := h5
      obtain ⟨haid, hbid, habne⟩ := merge_pair_facts hnd h.1 hli hrj
      have hA : s.fr.L.getD s.fr.li 0 = s.fr.L.get ⟨s.fr.li, hli⟩ := getD_eq_get hli
      have hB : s.fr.R.getD s.fr.rj 0 = s.fr.R.get ⟨s.fr.rj, hrj⟩ := getD_eq_get hrj
      have hca : ¬ (ids.contains (s.fr.L.getD s.fr.li 0) = false) := by
        rw [hA]
        show ¬ (List.elem (s.fr.L.get ⟨s.fr.li, hli⟩) ids = false)
        rw [List.elem_eq_true_of_mem haid]
        simp
      rw [if_neg hca]
      have hcb : ¬ (ids.contains (s.fr.R.getD s.fr.rj 0) = false) := by
        rw [hB]
        show ¬ (List.elem (s.fr.R.get ⟨s.fr.rj, hrj⟩) ids = false)
        rw [List.elem_eq_true_of_mem hbid]
        simp
      rw [if_neg hcb]
      have hne : ¬ (s.fr.L.getD s.fr.li 0 = s.fr.R.getD s.fr.rj 0) := by
        rw [hA, hB]
        exact habne
      rw [if_neg hne]
      have hj := @GInv_judge1 ids s _ _ outs h hli hrj (hA ▸ haid) (hB ▸ hbid)
        (by rw [hA, hB]; exact habne)
      cases hstep : judge1 (s.fr.L.getD s.fr.li 0) (s.fr.R.getD s.fr.rj 0) s outs with
      | inl p =>
        obtain ⟨s2, outs2⟩ := p
        rw [hstep] at hj
        exact ih _ _ hj
      | inr s2 =>
        rw [hstep] at hj
        exact hj
    · rw [if_neg h5]
      exact ih _ _ ⟨FInv_appendSplice h.1, h.2.1, h.2.2⟩

/-! ### Driver-level corollaries -/

theorem runMergeSort_GInv (ids : List Nat) (fuel : Nat) (outs : List Judgment)
    (hnd : ids.Nodup) : GInv ids (runMergeSort ids fuel outs).1 :=
  csLoop_GInv ids hnd ids.length fuel (initMState ids) outs (GInv_init ids)

theorem mergeSortResult_perm (ids : List Nat) (fuel : Nat) (outs : List Judgment)
    (res : List Nat) (hnd : ids.Nodup)
    (hres : mergeSortResult ids fuel outs = some res) : res.Perm ids := by
  unfold mergeSortResult at hres
  by_cases hne : ids = []
  · rw [if_pos hne] at hres
    exact absurd hres (by simp)
  rw [if_neg hne] at hres
  have hG := runMergeSort_GInv ids fuel outs hnd
  rcases hrun : runMergeSort ids fuel outs with ⟨s, rest, done⟩
  rw [hrun] at hres hG
  cases done with
  | false => simp at hres
  | true =>
    have harr : s.fr.arr.Perm ids := hG.1.1
    have hfil : s.fr.arr.filter (fun x => ids.contains x) = s.fr.arr := by
      rw [List.filter_eq_self]
      intro x hx
      exact List.elem_eq_true_of_mem (harr.mem_iff.mp hx)
    simp only at hres
    rw [hfil] at hres
    obtain rfl := Option.some.inj hres
    exact harr

theorem mergeSort_cache_symmetric (ids : List Nat) (fuel : Nat)
    (outs : List Judgment) (hnd : ids.Nodup) :
    CacheSymm (runMergeSort ids fuel outs).1.cache
      (runMergeSort ids fuel outs).1.ties :=
  (runMergeSort_GInv ids fuel outs hnd).2.1.2.2

/-! ### Counting distinct judged pairs (for the corrected C3 bound) -/

theorem countUnique_le {c : Cache} {ids : List Nat} (hnd : ids.Nodup)
    (h : ∀ kv ∈ c, kv.1.1 ∈ ids ∧ kv.1.2 ∈ ids ∧ kv.1.1 ≠ kv.1.2) :
    countUniqueCachePairs c ≤ ids.length * (ids.length - 1) / 2 := by
  classical
  set K := ((c.map (fun kv => kv.1)).map canonPair).dedup with hK
  have hKnd : K.Nodup := List.nodup_dedup _
  have hKmem : ∀ p ∈ K, p.1 ∈ ids ∧ p.2 ∈ ids ∧ p.1 < p.2 := by
    intro p hp
    rw [hK, List.mem_dedup] at hp
    obtain ⟨k, hk, rfl⟩ := List.mem_map.mp hp
    obtain ⟨kv, hkv, rfl⟩ := List.mem_map.mp hk
    obtain ⟨h1, h2, h3⟩ := h kv hkv
    unfold canonPair
    by_cases hlt : kv.1.1 < kv.1.2
    · rw [if_pos hlt]
      exact ⟨h1, h2, hlt⟩
    · rw [if_neg hlt]
      refine ⟨h2, h1, ?_⟩
      omega
  set O : Finset (Nat × Nat) := ids.toFinset.offDiag with hO
  set T : Finset (Nat × Nat) := O.filter (fun p => p.1 < p.2) with hT
  have hsub : K.toFinset ⊆ T := by
    intro p hp
    rw [List.mem_toFinset] at hp
    obtain ⟨h1, h2, h3⟩ := hKmem p hp
    rw [hT, Finset.mem_filter, hO, Finset.mem_offDiag]
    refine ⟨⟨List.mem_toFinset.mpr h1, List.mem_toFinset.mpr h2, ?_⟩, h3⟩
    omega
  have hcard : K.length = K.toFinset.card := (List.toFinset_card_of_nodup hKnd).symm
  have hle : K.toFinset.card ≤ T.card := Finset.card_le_card hsub
  have hfneg : O.filter (fun p => ¬ p.1 < p.2) = O.filter (fun p => p.2 < p.1) := by
    apply Finset.filter_congr
    intro p hp
    rw [hO, Finset.mem_offDiag] at hp
    constructor
    · intro hx
      rcases Nat.lt_or_ge p.2 p.1 with hh | hh
      · exact hh
      · exfalso
        have : p.1 = p.2 := by omega
        exact hp.2.2 this
    · intro hx
      omega
  have hsplit : T.card + (O.filter (fun p => p.2 < p.1)).card = O.card := by
    rw [← hfneg, hT]
    exact Finset.filter_card_add_filter_neg_card_eq_card _
  have hswap : (O.filter (fun p => p.2 < p.1)).card = T.card := by
    apply Finset.card_nbij' (fun p => (p.2, p.1)) (fun p => (p.2, p.1))
    · intro p hp
      rw [Finset.mem_filter, hO, Finset.mem_offDiag] at hp
      rw [hT, Finset.mem_filter, hO, Finset.mem_offDiag]
      obtain ⟨⟨hp1, hp2, hp3⟩, hp4⟩ := hp
      exact ⟨⟨hp2, hp1, fun hh => hp3 hh.symm⟩, hp4⟩
    · intro p hp
      rw [hT, Finset.mem_filter, hO, Finset.mem_offDiag] at hp
      rw [Finset.mem_filter, hO, Finset.mem_offDiag]
      obtain ⟨⟨hp1, hp2, hp3⟩, hp4⟩ := hp
      exact ⟨⟨hp2, hp1, fun hh => hp3 hh.symm⟩, hp4⟩
    · intro p hp
      rfl
    · intro p hp
      rfl
  have hOcard : O.card = ids.toFinset.card * ids.toFinset.card - ids.toFinset.card := by
    rw [hO]
    exact Finset.offDiag_card _
  have hn : ids.toFinset.card = ids.length := List.toFinset_card_of_nodup hnd
  have hmul : ids.length * ids.length - ids.length = ids.length * (ids.length - 1) := by
    cases ids with
    | nil => simp
    | cons x xs =>
      simp only [List.length_cons, Nat.add_sub_cancel]
      have h2 : (xs.length + 1) * (xs.length + 1) = (xs.length + 1) * xs.length +
          (xs.length + 1) := by ring
      omega
  have hfinal : T.card + T.card = ids.length * (ids.length - 1) := by
    rw [hswap] at hsplit
    rw [hsplit, hOcard, hn, hmul]
  have hKlen : countUniqueCachePairs c = K.length := rfl
  rw [hKlen, hcard]
  omega

theorem mergeSort_uniquePairs_le (ids : List Nat) (fuel : Nat)
    (outs : List Judgment) (hnd : ids.Nodup) :
    countUniqueCachePairs (runMergeSort ids fuel outs).1.cache ≤
      ids.length * (ids.length - 1) / 2 := by
  have hG := runMergeSort_GInv ids fuel outs hnd
  refine countUnique_le hnd ?_
  intro kv hkv
  obtain ⟨h1, h2, h3, _⟩ := hG.2.1.2.1 kv hkv
  exact ⟨h1, h2, h3⟩

/-! ### Undo-stack bound (merge-sort and ELO drivers share `pushUndoSnapshot`) -/

theorem pushSnap_le {u : List Snap} {sn : Snap} (h : u.length ≤ MAX_UNDO) :
    (pushSnap u sn).length ≤ MAX_UNDO := by
  unfold pushSnap
  by_cases hc : MAX_UNDO < (u ++ [sn]).length
  · rw [if_pos hc]
    simp only [List.length_drop, List.length_append, List.length_singleton] at hc ⊢
    omega
  · rw [if_neg hc]
    simp only [List.length_append, List.length_singleton] at hc ⊢
    omega

theorem pushSnap_eq_drop (u : List Snap) (sn : Snap) :
    pushSnap u sn = (u ++ [sn]).drop ((u.length + 1) - MAX_UNDO) := by
  unfold pushSnap
  by_cases hc : MAX_UNDO < (u ++ [sn]).length
  · rw [if_pos hc]
    have hl : (u ++ [sn]).length = u.length + 1 := by simp
    rw [hl]
  · rw [if_neg hc]
    simp only [List.length_append, List.length_singleton] at hc
    have hz : (u.length + 1) - MAX_UNDO = 0 := by omega
    rw [hz, List.drop_zero]

theorem judge1_undo_le {a b : Nat} {s : MState} {outs : List Judgment}
    (h : s.undo.length ≤ MAX_UNDO) :
    (match judge1 a b s outs with
     | .inl (s', _) => s'.undo.length ≤ MAX_UNDO
     | .inr s' => s'.undo.length ≤ MAX_UNDO) := by
  have hp : (pushSnap s.undo ⟨some s.fr, s.cache, s.ties⟩).length ≤ MAX_UNDO :=
    pushSnap_le h
  have hpd : ((pushSnap s.undo ⟨some s.fr, s.cache, s.ties⟩).dropLast).length ≤
      MAX_UNDO := by
    rw [List.length_dropLast]
    omega
  unfold judge1
  cases cacheGet s.cache (a, b) with
  | some v => exact hp
  | none =>
    cases outs with
    | nil => exact hp
    | cons o rest =>
      cases o with
      | back =>
        dsimp only
        by_cases hlen : (pushSnap s.undo ⟨some s.fr, s.cache, s.ties⟩).length < 2
        · rw [if_pos hlen]
          exact hp
        · rw [if_neg hlen]
          cases (pushSnap s.undo ⟨some s.fr, s.cache, s.ties⟩).dropLast.getLast? with
          | none => exact hpd
          | some sn => exact hpd
      | skp => exact hp
      | lft => exact hp
      | tie => exact hp
      | rgt => exact hp

theorem csLoop_undo_le (ids : List Nat) (N : Nat) :
    ∀ fuel s outs, s.undo.length ≤ MAX_UNDO →
      (csLoop ids N fuel s outs).1.undo.length ≤ MAX_UNDO := by
  intro fuel
  induction fuel with
  | zero =>
    intro s outs h
    exact h
  | succ n ih =>
    intro s outs h
    rw [csLoop]
    by_cases h1 : N ≤ s.fr.width
    · rw [if_pos h1]
      exact h
    rw [if_neg h1]
    by_cases h2 : s.fr.arr.length ≤ s.fr.i
    · rw [if_pos h2]
      exact ih _ _ h
    rw [if_neg h2]
    by_cases h3 : s.fr.L.length = 0 ∧ s.fr.R.length = 0
    · rw [if_pos h3]
      exact ih _ _ h
    rw [if_neg h3]
    by_cases h4 : s.fr.R.length = 0
    · rw [if_pos h4]
      exact ih _ _ h
    rw [if_neg h4]
    by_cases h5 : s.fr.li < s.fr.L.length ∧ s.fr.rj < s.fr.R.length
    · rw [if_pos h5]
      by_cases hca : ids.contains (s.fr.L.getD s.fr.li 0) = false
      · rw [if_pos hca]
        exact ih _ _ h
      rw [if_neg hca]
      by_cases hcb : ids.contains (s.fr.R.getD s.fr.rj 0) = false
      · rw [if_pos hcb]
        exact ih _ _ h
      rw [if_neg hcb]
      by_cases hab : s.fr.L.getD s.fr.li 0 = s.fr.R.getD s.fr.rj 0
      · rw [if_pos hab]
        by_cases hrr : s.fr.R.length ≤ s.fr.rj + 1
        · rw [if_pos hrr]
          exact ih _ _ h
        · rw [if_neg hrr]
          have hj := @judge1_undo_le (s.fr.L.getD s.fr.li 0)
            (s.fr.R.getD (s.fr.rj + 1) 0)
            { s with fr := { s.fr with rj := s.fr.rj + 1 } }
            outs h
          cases hstep : judge1 (s.fr.L.getD s.fr.li 0) (s.fr.R.getD (s.fr.rj + 1) 0)
              { s with fr := { s.fr with rj := s.fr.rj + 1 } } outs with
          | inl p =>
            obtain ⟨s2, outs2⟩ := p
            rw [hstep] at hj
            exact ih _ _ hj
          | inr s2 =>
            rw [hstep] at hj
            exact hj
      · rw [if_neg hab]
        have hj := @judge1_undo_le (s.fr.L.getD s.fr.li 0)
          (s.fr.R.getD s.fr.rj 0) s outs h
        cases hstep : judge1 (s.fr.L.getD s.fr.li 0) (s.fr.R.getD s.fr.rj 0)
            s outs with
        | inl p =>
          obtain ⟨s2, outs2⟩ := p
          rw [hstep] at hj
          exact ih _ _ hj
        | inr s2 =>
          rw [hstep] at hj
          exact hj
    · rw [if_neg h5]
      exact ih _ _ h

theorem runMergeSort_undo_le (ids : List Nat) (fuel : Nat) (outs : List Judgment) :
    (runMergeSort ids fuel outs).1.undo.length ≤ MAX_UNDO := by
  apply csLoop_undo_le
  show (pushSnap [] ⟨some (initFrame ids), [], []⟩).length ≤ MAX_UNDO
  apply pushSnap_le
  simp [MAX_UNDO]

/-! ### ELO initialisation arithmetic -/

theorem jsRound_nonpos {q : ℚ} (h : q ≤ 0) : jsRound q ≤ 0 := by
  unfold jsRound
  have h1 : q + 1 / 2 ≤ 1 / 2 := by linarith
  calc ⌊q + 1 / 2⌋ ≤ ⌊(1 : ℚ) / 2⌋ := Int.floor_le_floor h1
    _ = 0 := by norm_num

theorem jsRound_half_nat (m : Nat) : jsRound ((m : ℚ) / 2) = ((m + 1) / 2 : ℕ) := by
  unfold jsRound
  have h3 : ((m : ℚ)) / 2 + 1 / 2 = (((m + 1 : ℕ)) : ℚ) / ((2 : ℕ) : ℚ) := by
    push_cast
    ring
  rw [h3, Rat.floor_natCast_div_natCast]
  exact (Int.ofNat_div _ _).symm

/-- `estimateEloPairTarget` in purely integer form. -/
theorem estimateEloPairTarget_eq (n : Nat) :
    estimateEloPairTarget n =
      if n ≤ 1 then 0 else max (n - 1) ((3 * n * ceilLog2 n + 1) / 2) := by
  unfold estimateEloPairTarget
  by_cases h : n ≤ 1
  · rw [if_pos h, if_pos h]
  · rw [if_neg h, if_neg h]
    show max (n - 1) ((jsRound ((3 : ℚ) / 2 * n * (ceilLog2 n))).toNat) =
      max (n - 1) ((3 * n * ceilLog2 n + 1) / 2)
    congr 1
    have h1 : (3 : ℚ) / 2 * n * ceilLog2 n = ((3 * n * ceilLog2 n : ℕ) : ℚ) / 2 := by
      push_cast
      ring
    rw [h1, jsRound_half_nat]
    exact Int.toNat_natCast _

theorem initEloCore_fast (n : Nat) :
    (initEloCore n .fast).totalPairs = estimateEloPairTarget n ∧
    (initEloCore n .fast).kFactor = 40 := by
  refine ⟨?_, rfl⟩
  show estimateEloPairTarget n +
    (max 0 (jsRound (((6 : ℚ) / 10 - 1) * (estimateEloPairTarget n : ℚ)))).toNat =
    estimateEloPairTarget n
  have hle : jsRound (((6 : ℚ) / 10 - 1) * (estimateEloPairTarget n : ℚ)) ≤ 0 := by
    apply jsRound_nonpos
    have h1 : ((6 : ℚ) / 10 - 1) ≤ 0 := by norm_num
    have h2 : (0 : ℚ) ≤ (estimateEloPairTarget n : ℚ) := Nat.cast_nonneg _
    exact mul_nonpos_of_nonpos_of_nonneg h1 h2
  rw [max_eq_left hle]
  simp

theorem initEloCore_balanced (n : Nat) :
    (initEloCore n .balanced).totalPairs = estimateEloPairTarget n ∧
    (initEloCore n .balanced).kFactor = 32 := by
  refine ⟨?_, rfl⟩
  show estimateEloPairTarget n +
    (max 0 (jsRound (((1 : ℚ) - 1) * (estimateEloPairTarget n : ℚ)))).toNat =
    estimateEloPairTarget n
  have h1 : ((1 : ℚ) - 1) * (estimateEloPairTarget n : ℚ) = 0 := by ring
  rw [h1]
  have h2 : jsRound (0 : ℚ) = 0 := by
    unfold jsRound
    norm_num
  rw [h2]
  simp

theorem initEloCore_accurate (n : Nat) :
    (initEloCore n .accurate).totalPairs =
      estimateEloPairTarget n + (estimateEloPairTarget n + 1) / 2 ∧
    (initEloCore n .accurate).kFactor = 24 := by
  refine ⟨?_, rfl⟩
  show estimateEloPairTarget n +
    (max 0 (jsRound (((15 : ℚ) / 10 - 1) * (estimateEloPairTarget n : ℚ)))).toNat =
    estimateEloPairTarget n + (estimateEloPairTarget n + 1) / 2
  have h1 : ((15 : ℚ) / 10 - 1) * (estimateEloPairTarget n : ℚ) =
      ((estimateEloPairTarget n : ℚ)) / 2 := by ring
  rw [h1, jsRound_half_nat]
  rw [max_eq_right (Int.natCast_nonneg _)]
  rw [Int.toNat_natCast]

theorem estimateEloPairTarget_four : estimateEloPairTarget 4 = 12 := by
  have hc : ceilLog2 4 = 2 := by simp [ceilLog2, Nat.clog]
  rw [estimateEloPairTarget_eq, hc]
  decide

/-! ## Tier Cutoffs wizard (`applyCut` / `nextCut` / `prevCut` /
`applyCutoffsToTiers`) -/

/-- Tier labels: `CUTOFF_TIERS = ['SS','S','A','B','C','D','F']` plus the
`Unplaced` bucket. -/
inductive TierLabel
  | SS
  | S
  | A
  | B
  | C
  | D
  | F
  | Unplaced
deriving Repr, DecidableEq

/-- The ordered cutoff tiers (without `Unplaced`). -/
def CUTOFF_TIERS : List TierLabel := [.SS, .S, .A, .B, .C, .D, .F]

/-- `cutState.chosen[t] || 0` — object lookup defaulting to 0. -/
def chosenGet (ch : List (TierLabel × Nat)) (t : TierLabel) : Nat :=
  match ch.find? (fun e => e.1 == t) with
  | some e => e.2
  | none => 0

/-- `cutState.chosen[t] = count` — object property write. -/
def chosenSet : List (TierLabel × Nat) → TierLabel → Nat → List (TierLabel × Nat)
  | [], t, n => [(t, n)]
  | e :: rest, t, n => if e.1 = t then (t, n) :: rest else e :: chosenSet rest t n

/-- The cutoffs wizard state `cutState`
(`{ rankIds, pos, chosen, cursor }`).  The out-of-range tier label read
`CUTOFF_TIERS[pos]` for `pos ≥ 7` (never reached: `nextCut` clamps
`pos`) is modelled with the default `.SS`. -/
structure CutState where
  rankIds : List Nat
  pos : Nat
  chosen : List (TierLabel × Nat)
  cursor : Nat
deriving Repr, DecidableEq

/-- `applyCut(value)`: `count = Math.max(0, Math.min(remaining,
Number(value||0)|0))` (the `|0` truncation makes the entry an arbitrary
integer, possibly negative) stored for the current tier. -/
def applyCut (cs : CutState) (value : Int) : CutState :=
  let tier := CUTOFF_TIERS.getD cs.pos .SS
  let remaining := cs.rankIds.length - cs.cursor
  let count := (max 0 (min (remaining : Int) value)).toNat
  { cs with chosen := chosenSet cs.chosen tier count }

/-- `nextCut()`: apply the entered count, advance the cursor by it, and
move to the next tier (clamped at the last). -/
def nextCut (cs : CutState) (value : Int) : CutState :=
  let cs1 := applyCut cs value
  let tier := CUTOFF_TIERS.getD cs1.pos .SS
  let cs2 := { cs1 with cursor := cs1.cursor + chosenGet cs1.chosen tier }
  if cs2.pos < CUTOFF_TIERS.length - 1 then { cs2 with pos := cs2.pos + 1 } else cs2

/-- `prevCut()`: step back one tier, rewinding the cursor by that tier's
stored count. -/
def prevCut (cs : CutState) : CutState :=
  if cs.pos = 0 then cs
  else
    let prevTier := CUTOFF_TIERS.getD (cs.pos - 1) .SS
    { cs with
      pos := cs.pos - 1
      cursor := cs.cursor - chosenGet cs.chosen prevTier }

/-- The tier-building loop of `applyCutoffsToTiers`:
`n = Math.max(0, Math.min(ids.length - cursor, chosen[t] || 0));
tiers[t] = ids.slice(cursor, cursor + n); cursor += n`.  (In `Nat`
arithmetic `ids.length - cursor` is already clamped at 0, subsuming the
`max 0`.) -/
def buildTiersGo (ids : List Nat) (ch : List (TierLabel × Nat)) :
    List TierLabel → Nat → List (TierLabel × List Nat) × Nat
  | [], cursor => ([], cursor)
  | t :: ts, cursor =>
    let n := min (ids.length - cursor) (chosenGet ch t)
    let seg := (ids.drop cursor).take n
    let rest := buildTiersGo ids ch ts (cursor + n)
    ((t, seg) :: rest.1, rest.2)

/-- `applyCutoffsToTiers()`: the seven cutoff tiers in order followed by
`Unplaced = ids.slice(cursor)`. -/
def applyCutoffsToTiers (cs : CutState) : List (TierLabel × List Nat) :=
  let b := buildTiersGo cs.rankIds cs.chosen CUTOFF_TIERS 0
  b.1 ++ [(.Unplaced, cs.rankIds.drop b.2)]

theorem chosenGet_chosenSet (ch : List (TierLabel × Nat)) (t : TierLabel) (n : Nat) :
    chosenGet (chosenSet ch t n) t = n := by
  induction ch with
  | nil => simp [chosenGet, chosenSet]
  | cons e rest ih =>
    by_cases h : e.1 = t
    · simp [chosenGet, chosenSet, h]
    · simp only [chosenSet, if_neg h]
      have hb : (e.1 == t) = false := by
        simp [h]
      simp only [chosenGet, List.find?]
      rw [hb]
      exact ih

theorem buildTiersGo_spec (ids : List Nat) (ch : List (TierLabel × Nat)) :
    ∀ (ts : List TierLabel) (cursor : Nat), cursor ≤ ids.length →
      (buildTiersGo ids ch ts cursor).2 ≤ ids.length ∧
      ((buildTiersGo ids ch ts cursor).1.map (fun p => p.2)).flatten ++
        ids.drop (buildTiersGo ids ch ts cursor).2 = ids.drop cursor := by
  intro ts
  induction ts with
  | nil =>
    intro cursor h
    exact ⟨h, by simp [buildTiersGo]⟩
  | cons t ts ih =>
    intro cursor h
    simp only [buildTiersGo]
    have hcn : cursor + min (ids.length - cursor) (chosenGet ch t) ≤ ids.length := by
      omega
    obtain ⟨ih1, ih2⟩ := ih (cursor + min (ids.length - cursor) (chosenGet ch t)) hcn
    refine ⟨ih1, ?_⟩
    simp only [List.map_cons, List.flatten_cons, List.append_assoc]
    rw [ih2, ← List.drop_drop, List.take_append_drop]

theorem applyCutoffsToTiers_flatten (cs : CutState) :
    ((applyCutoffsToTiers cs).map (fun p => p.2)).flatten = cs.rankIds := by
  obtain ⟨h1, h2⟩ := buildTiersGo_spec cs.rankIds cs.chosen CUTOFF_TIERS 0
    (Nat.zero_le _)
  rw [List.drop_zero] at h2
  show (((buildTiersGo cs.rankIds cs.chosen CUTOFF_TIERS 0).1 ++
    [(TierLabel.Unplaced,
      cs.rankIds.drop (buildTiersGo cs.rankIds cs.chosen CUTOFF_TIERS 0).2)]).map
      (fun p => p.2)).flatten = cs.rankIds
  rw [List.map_append, List.flatten_append]
  simp only [List.map_cons, List.map_nil, List.flatten_cons, List.flatten_nil,
    List.append_nil]
  exact h2

theorem applyCutoffsToTiers_lengths (cs : CutState) :
    (((applyCutoffsToTiers cs).map (fun p => p.2)).map List.length).sum =
      cs.rankIds.length := by
  have h := applyCutoffsToTiers_flatten cs
  calc (((applyCutoffsToTiers cs).map (fun p => p.2)).map List.length).sum
      = (((applyCutoffsToTiers cs).map (fun p => p.2)).flatten).length := by
        rw [List.length_flatten]
    _ = cs.rankIds.length := by rw [h]

theorem applyCut_clamped (cs : CutState) (value : Int) :
    chosenGet (applyCut cs value).chosen (CUTOFF_TIERS.getD cs.pos .SS) ≤
      cs.rankIds.length - cs.cursor := by
  show chosenGet (chosenSet cs.chosen (CUTOFF_TIERS.getD cs.pos .SS)
    ((max 0 (min ((cs.rankIds.length - cs.cursor : Nat) : Int) value)).toNat))
    (CUTOFF_TIERS.getD cs.pos .SS) ≤ cs.rankIds.length - cs.cursor
  rw [chosenGet_chosenSet]
  omega

/-! ## Elimination Picker (`PresidentialPicker`)

Picker ids are `Nat`.  The in-class Fisher-Yates `shuffle` uses
`Math.random()`; we thread an explicit stream of naturals through every
operation and model `Math.floor(Math.random() * (i + 1))` as `r % (i + 1)`
(the same range, surjectively), so every theorem quantified over the
stream covers every possible run. -/

/-- An `eliminated` entry `{ id, eliminatedBy: [id, ...] }`. -/
structure ElimEntry where
  id : Nat
  eliminatedBy : List Nat
deriving Repr, DecidableEq

/-- The state captured by `getStateSnapshot` (a JSON deep copy). -/
structure PickerSnap where
  eliminated : List ElimEntry
  survived : List Nat
  current : List Nat
  evaluating : List Nat
  favorites : List Nat
  batchSize : Nat
  pickCount : Nat
deriving Repr, DecidableEq

/-- The picker's mutable state.  `historyIndex` starts at `-1`, hence
`Int`. -/
structure Picker where
  allIds : List Nat
  eliminated : List ElimEntry
  survived : List Nat
  current : List Nat
  evaluating : List Nat
  favorites : List Nat
  history : List PickerSnap
  historyIndex : Int
  batchSize : Nat
  pickCount : Nat
deriving Repr, DecidableEq

/-- `PICKER_CONFIG.MAX_BATCH_SIZE`. -/
def MAX_BATCH_SIZE : Nat := 6

/-- `PICKER_CONFIG.MIN_BATCH_SIZE`. -/
def MIN_BATCH_SIZE : Nat := 2

/-- `PICKER_CONFIG.WHITTLE_DIVISOR`. -/
def WHITTLE_DIVISOR : Nat := 2

/-- `calculateBatchSize(remaining) =
max(MIN, min(MAX, ceil(remaining / WHITTLE_DIVISOR)))`. -/
def calculateBatchSize (remaining : Nat) : Nat :=
  max MIN_BATCH_SIZE
    (min MAX_BATCH_SIZE ((remaining + WHITTLE_DIVISOR - 1) / WHITTLE_DIVISOR))

/-- `[arr[i], arr[j]] = [arr[j], arr[i]]` on id arrays. -/
def swapNat (a : List Nat) (i j : Nat) : List Nat :=
  match a.get? i, a.get? j with
  | some x, some y => (a.set i y).set j x
  | _, _ => a

/-- The Fisher-Yates loop of `PresidentialPicker.shuffle`, consuming one
stream entry per iteration (`headD 0` when the stream is exhausted — any
choice stays within the quantified family of streams). -/
def pickerShuffleGo : List Nat → List Nat → Nat → List Nat × List Nat
  | rng, a, 0 => (a, rng)
  | rng, a, i + 1 =>
    let j := rng.headD 0 % (i + 2)
    pickerShuffleGo rng.tail (swapNat a (i + 1) j) i

/-- `shuffle(arr)`: the shuffled array and the unconsumed stream. -/
def pickerShuffle (rng : List Nat) (a : List Nat) : List Nat × List Nat :=
  pickerShuffleGo rng a (a.length - 1)

/-- One downward iteration of `removeFromEliminated` (the source loops
`i` from high to low, here a right fold): an entry listing `fav` among
its eliminators loses it; if its eliminator list becomes empty the entry
is removed and its id appended to the restored list (higher indices
first, matching the loop order). -/
def removeElimStep (fav : Nat) (e : ElimEntry) (acc : List ElimEntry × List Nat) :
    List ElimEntry × List Nat :=
  if fav ∈ e.eliminatedBy then
    let e' : ElimEntry := ⟨e.id, e.eliminatedBy.erase fav⟩
    if e'.eliminatedBy = [] then (acc.1, acc.2 ++ [e.id])
    else (e' :: acc.1, acc.2)
  else (e :: acc.1, acc.2)

/-- The whole `removeFromEliminated` scan: remaining entries and
restored ids. -/
def removeElimPass (fav : Nat) (elim : List ElimEntry) :
    List ElimEntry × List Nat :=
  elim.foldr (removeElimStep fav) ([], [])

/-- `removeFromEliminated(favoriteId)`, including the trailing
stuck-state fallback (`restoredCount === 0 && eliminated.length > 0 &&
current.length === 0 && survived.length === 0` restores everything). -/
def Picker.removeFromEliminated (s : Picker) (fav : Nat) : Picker :=
  let p := removeElimPass fav s.eliminated
  let s1 := { s with eliminated := p.1, survived := s.survived ++ p.2 }
  if p.2.length = 0 ∧ s1.eliminated ≠ [] ∧ s1.current = [] ∧ s1.survived = [] then
    { s1 with
      survived := s1.survived ++ s1.eliminated.map (fun e => e.id)
      eliminated := [] }
  else s1

/-- `addToFavorites(id)`: append when absent, then unlock entries
eliminated only by it. -/
def Picker.addToFavorites (s : Picker) (idv : Nat) : Picker :=
  let s1 := if idv ∈ s.favorites then s
    else { s with favorites := s.favorites ++ [idv] }
  s1.removeFromEliminated idv

/-- The safety check opening `nextBatch()`: stuck with nothing in play
but items eliminated — restore them all. -/
def Picker.stuckRestore (s : Picker) : Picker :=
  if s.current = [] ∧ s.survived = [] ∧ s.eliminated ≠ [] then
    { s with
      survived := s.survived ++ s.eliminated.map (fun e => e.id)
      eliminated := [] }
  else s

/-- The head of `nextRound()`: a lone survivor with `current` empty is
the next favorite (cleared from `survived` before `addToFavorites`). -/
def Picker.favoriteStep (s : Picker) : Picker :=
  if s.current = [] ∧ s.survived.length = 1 then
    Picker.addToFavorites { s with survived := [] } (s.survived.headD 0)
  else s

/-- The tail of `nextRound()`: merge the (already shuffled) survivors
into `current` and recompute the batch size. -/
def Picker.newRound (s : Picker) (shuffled : List Nat) : Picker :=
  { s with
    survived := []
    current := s.current ++ shuffled
    batchSize := calculateBatchSize (s.current ++ shuffled).length }

/-- The tail of `nextBatch()`: `evaluating = current.splice(0, batchSize)`. -/
def Picker.takeBatch (s : Picker) : Picker :=
  { s with
    evaluating := s.current.take s.batchSize
    current := s.current.drop s.batchSize }

/-- `nextBatch()` with `nextRound()` inlined at its single call site.
The source's mutual recursion is realised with a fuel parameter; the
call chain is short (at most two rounds per user operation), and all the
invariants below hold for every fuel value. -/
def Picker.nextBatch : Nat → Picker → List Nat → Picker
  | 0, s, _ => s
  | fuel + 1, s, rng =>
    let s1 := s.stuckRestore
    if s1.current.length < s1.batchSize ∧ s1.survived ≠ [] then
      let s2 := s1.favoriteStep
      let sh := pickerShuffle rng s2.survived
      Picker.nextBatch fuel (s2.newRound sh.1) sh.2
    else
      s1.takeBatch

/-- `getStateSnapshot()`. -/
def Picker.snapshot (s : Picker) : PickerSnap :=
  ⟨s.eliminated, s.survived, s.current, s.evaluating, s.favorites, s.batchSize,
    s.pickCount⟩

/-- `pushHistory()`: truncate any redo tail, push a snapshot, and cap
the stack at 50 entries (`history.shift()`, decrementing the index). -/
def Picker.pushHistory (s : Picker) : Picker :=
  let h0 := if s.historyIndex < (s.history.length : Int) - 1 then
      s.history.take (s.historyIndex + 1).toNat
    else s.history
  let h1 := h0 ++ [s.snapshot]
  let hi : Int := (h1.length : Int) - 1
  if 50 < h1.length then { s with history := h1.drop 1, historyIndex := hi - 1 }
  else { s with history := h1, historyIndex := hi }

/-- `restoreSnapshot(snapshot)` — wholesale state replacement. -/
def Picker.restoreSnapshot (s : Picker) (sn : PickerSnap) : Picker :=
  { s with
    eliminated := sn.eliminated
    survived := sn.survived
    current := sn.current
    evaluating := sn.evaluating
    favorites := sn.favorites
    batchSize := sn.batchSize
    pickCount := sn.pickCount }

/-- `undo()`: when at the end of history, first push the live state for
redo; then restore `history[historyIndex]` and decrement the index.
(Under the history invariant the lookup never fails; the `none` branch
is the unreachable JS crash path.) -/
def Picker.undoOp (s : Picker) : Picker :=
  if s.historyIndex < 0 then s
  else
    let s1 := if s.historyIndex = (s.history.length : Int) - 1 then
        { s with history := s.history ++ [s.snapshot] }
      else s
    match s1.history.get? s.historyIndex.toNat with
    | some sn => { s1.restoreSnapshot sn with historyIndex := s.historyIndex - 1 }
    | none => { s1 with historyIndex := s.historyIndex - 1 }

/-- Ample fuel for the `nextBatch`/`nextRound` chain of one operation. -/
def pickerFuel (s : Picker) : Nat := s.allIds.length + 4

/-- `pick(pickedIds)`: history push, pick counter, the final-pair
special case, then survive/eliminate and the next batch. -/
def Picker.pick (s : Picker) (pickedIds : List Nat) (rng : List Nat) : Picker :=
  let s1 := s.pushHistory
  let s2 := { s1 with pickCount := s1.pickCount + 1 }
  let notPicked := s2.evaluating.filter (fun idv => !(pickedIds.contains idv))
  let totalRemaining := s2.current.length + s2.survived.length +
    s2.evaluating.length + s2.eliminated.length
  if totalRemaining = 2 ∧ s2.evaluating.length = 2 ∧ pickedIds.length = 1 then
    { s2 with
      favorites := s2.favorites ++ [pickedIds.headD 0, notPicked.headD 0]
      evaluating := [] }
  else
    let s3 := { s2 with survived := s2.survived ++ pickedIds }
    let newElim : List ElimEntry := notPicked.map (fun idv => ⟨idv, pickedIds⟩)
    let s4 := { s3 with eliminated := s3.eliminated ++ newElim }
    let s5 := { s4 with evaluating := [] }
    Picker.nextBatch (pickerFuel s5) s5 rng

/-- `pass()`: the whole batch survives (no pick counted). -/
def Picker.pass (s : Picker) (rng : List Nat) : Picker :=
  let s1 := s.pushHistory
  let s2 := { s1 with survived := s1.survived ++ s1.evaluating, evaluating := [] }
  Picker.nextBatch (pickerFuel s2) s2 rng

/-- `initialize()`: shuffle all ids into `current`, compute the batch
size, and take the first batch. -/
def Picker.initAll (allIds : List Nat) (rng : List Nat) : Picker :=
  let sh := pickerShuffle rng allIds
  let s : Picker := {
    allIds := allIds, eliminated := [], survived := [], current := sh.1,
    evaluating := [], favorites := [], history := [], historyIndex := -1,
    batchSize := calculateBatchSize sh.1.length, pickCount := 0 }
  Picker.nextBatch (pickerFuel s) s sh.2

/-- A user-level picker operation.  A pick is the set of checked cards
of the displayed batch — an arbitrary sub-selection of `evaluating`
(the UI's `selected` set only ever holds rendered batch items), modelled
as a selection predicate; each operation carries the randomness its
shuffles consume. -/
inductive PickerOp
  | pick (mask : Nat → Bool) (rng : List Nat)
  | pass (rng : List Nat)
  | undo

/-- Apply one user operation. -/
def applyPickerOp (s : Picker) : PickerOp → Picker
  | .pick mask rng => s.pick (s.evaluating.filter mask) rng
  | .pass rng => s.pass rng
  | .undo => s.undoOp

/-- A full run: `initialize` followed by a sequence of operations. -/
def runPicker (allIds : List Nat) (rng0 : List Nat) (ops : List PickerOp) : Picker :=
  ops.foldl applyPickerOp (Picker.initAll allIds rng0)

/-- The ids across the five state collections, in order. -/
def pickerIds (s : Picker) : List Nat :=
  s.current ++ s.survived ++ s.evaluating ++ s.eliminated.map (fun e => e.id) ++
    s.favorites

/-- The same reading of a history snapshot. -/
def snapIds (sn : PickerSnap) : List Nat :=
  sn.current ++ sn.survived ++ sn.evaluating ++ sn.eliminated.map (fun e => e.id) ++
    sn.favorites

/-- Partition invariant: the five collections jointly hold exactly the
candidate ids (so, with distinct candidates, each id is in exactly one
collection), and every stored history snapshot does too. -/
def PickerInv (s : Picker) : Prop :=
  (pickerIds s).Perm s.allIds ∧ ∀ sn ∈ s.history, (snapIds sn).Perm s.allIds

/-! ### Shuffle permutes -/

theorem swapNat_perm (a : List Nat) (i j : Nat) : (swapNat a i j).Perm a := by
  unfold swapNat
  cases hi : a.get? i with
  | none => exact List.Perm.refl a
  | some x =>
    cases hj : a.get? j with
    | none => exact List.Perm.refl a
    | some y =>
      obtain ⟨hi', hx⟩ := List.get?_eq_some.mp hi
      obtain ⟨hj', hy⟩ := List.get?_eq_some.mp hj
      dsimp only
      by_cases hij : i = j
      · subst hij
        rw [List.set_set]
        have hxy : x = y := by rw [← hx, ← hy]
        subst hxy
        have hid : a.set i x = a := by
          rw [← hx]
          rw [List.set_eq_take_append_cons_drop, if_pos hi', ← drop_eq_get_cons hi']
          exact List.take_append_drop i a
        rw [hid]
      · refine List.perm_iff_count.mpr (fun b => ?_)
        have hl1 : j < (a.set i y).length := by rw [List.length_set]; exact hj'
        rw [List.count_set x b (a.set i y) j hl1, List.count_set y b a i hi']
        have hgj : (a.set i y)[j] = a[j] := List.getElem_set_ne hij hl1
        rw [hgj]
        have hax : a[i] = x := hx
        have haj : a[j] = y := hy
        rw [hax, haj]
        by_cases hbx : x == b
        · have hb : b ∈ a := by
            have hxmem : x ∈ a := List.get?_mem hi
            rwa [eq_of_beq hbx] at hxmem
          have hpos : 0 < List.count b a := List.count_pos_iff.mpr hb
          by_cases hby : y == b <;> simp [hbx, hby] <;> omega
        · by_cases hby : y == b <;> simp [hbx, hby] <;> omega

theorem pickerShuffleGo_perm (i : Nat) : ∀ (rng a : List Nat),
    ((pickerShuffleGo rng a i).1).Perm a := by
  induction i with
  | zero => intro rng a; exact List.Perm.refl a
  | succ k ih =>
    intro rng a
    exact (ih rng.tail (swapNat a (k + 1) (rng.headD 0 % (k + 2)))).trans
      (swapNat_perm a (k + 1) (rng.headD 0 % (k + 2)))

theorem pickerShuffle_perm (rng a : List Nat) : ((pickerShuffle rng a).1).Perm a :=
  pickerShuffleGo_perm (a.length - 1) rng a

/-! ### `removeFromEliminated` conserves ids -/

theorem removeElimPass_perm (fav : Nat) (elim : List ElimEntry) :
    ((removeElimPass fav elim).1.map (fun e => e.id) ++
      (removeElimPass fav elim).2).Perm (elim.map (fun e => e.id)) := by
  induction elim with
  | nil => simp [removeElimPass]
  | cons e tl ih =>
    rw [show removeElimPass fav (e :: tl) =
      removeElimStep fav e (removeElimPass fav tl) from rfl]
    unfold removeElimStep
    split
    · dsimp only
      split
      · refine List.Perm.trans ?_ ((ih.cons e.id).trans (by simp))
        rw [← Multiset.coe_eq_coe]
        simp only [← Multiset.coe_add, ← Multiset.cons_coe, ← Multiset.singleton_add]
        ac_rfl
      · simpa using ih.cons e.id
    · simpa using ih.cons e.id

theorem pickerIds_def (s : Picker) : pickerIds s =
    s.current ++ s.survived ++ s.evaluating ++
      s.eliminated.map (fun e => e.id) ++ s.favorites := rfl

theorem removeFromEliminated_fields (s : Picker) (fav : Nat) :
    (s.removeFromEliminated fav).allIds = s.allIds ∧
      (s.removeFromEliminated fav).history = s.history ∧
      (s.removeFromEliminated fav).historyIndex = s.historyIndex ∧
      (s.removeFromEliminated fav).evaluating = s.evaluating := by
  unfold Picker.removeFromEliminated
  dsimp only
  split <;> exact ⟨rfl, rfl, rfl, rfl⟩

theorem removeFromEliminated_pids (s : Picker) (fav : Nat) :
    (pickerIds (s.removeFromEliminated fav)).Perm (pickerIds s) := by
  have hp := removeElimPass_perm fav s.eliminated
  have hm : (↑((removeElimPass fav s.eliminated).1.map (fun e => e.id)) +
      ↑((removeElimPass fav s.eliminated).2) : Multiset Nat) =
      ↑(s.eliminated.map (fun e => e.id)) := by
    rw [Multiset.coe_add]
    exact Multiset.coe_eq_coe.mpr hp
  unfold Picker.removeFromEliminated
  dsimp only
  split
  · rw [pickerIds_def, pickerIds_def]
    dsimp only
    simp only [List.map_nil, List.append_nil]
    rw [← Multiset.coe_eq_coe]
    simp only [← Multiset.coe_add]
    rw [← hm]
    ac_rfl
  · rw [pickerIds_def, pickerIds_def]
    dsimp only
    rw [← Multiset.coe_eq_coe]
    simp only [← Multiset.coe_add]
    rw [← hm]
    ac_rfl

theorem addToFavorites_fields (s : Picker) (idv : Nat) :
    (s.addToFavorites idv).allIds = s.allIds ∧
      (s.addToFavorites idv).history = s.history ∧
      (s.addToFavorites idv).historyIndex = s.historyIndex ∧
      (s.addToFavorites idv).evaluating = s.evaluating := by
  unfold Picker.addToFavorites
  dsimp only
  split
  · exact removeFromEliminated_fields s idv
  · exact removeFromEliminated_fields { s with favorites := s.favorites ++ [idv] } idv

theorem addToFavorites_pids (s : Picker) (idv : Nat) (h : idv ∉ s.favorites) :
    (pickerIds (s.addToFavorites idv)).Perm (pickerIds s ++ [idv]) := by
  unfold Picker.addToFavorites
  dsimp only
  rw [if_neg h]
  refine (removeFromEliminated_pids _ idv).trans ?_
  rw [pickerIds_def, pickerIds_def]
  dsimp only
  rw [← Multiset.coe_eq_coe]
  simp only [← Multiset.coe_add]
  ac_rfl

/-! ### `nextBatch` conserves ids -/

theorem stuckRestore_fields (s : Picker) :
    (s.stuckRestore).allIds = s.allIds ∧ (s.stuckRestore).history = s.history ∧
      (s.stuckRestore).historyIndex = s.historyIndex ∧
      (s.stuckRestore).evaluating = s.evaluating := by
  unfold Picker.stuckRestore
  split <;> exact ⟨rfl, rfl, rfl, rfl⟩

theorem stuckRestore_pids (s : Picker) :
    (pickerIds (s.stuckRestore)).Perm (pickerIds s) := by
  unfold Picker.stuckRestore
  split
  · rw [pickerIds_def, pickerIds_def]
    dsimp only
    simp only [List.map_nil, List.append_nil]
    rw [← Multiset.coe_eq_coe]
    simp only [← Multiset.coe_add]
    ac_rfl
  · exact List.Perm.refl _

theorem favoriteStep_fields (s : Picker) :
    (s.favoriteStep).allIds = s.allIds ∧ (s.favoriteStep).history = s.history ∧
      (s.favoriteStep).historyIndex = s.historyIndex ∧
      (s.favoriteStep).evaluating = s.evaluating := by
  unfold Picker.favoriteStep
  split
  · exact addToFavorites_fields { s with survived := [] } (s.survived.headD 0)
  · exact ⟨rfl, rfl, rfl, rfl⟩

theorem favoriteStep_pids (s : Picker) (hnd : s.allIds.Nodup)
    (hperm : (pickerIds s).Perm s.allIds) :
    (pickerIds (s.favoriteStep)).Perm (pickerIds s) := by
  unfold Picker.favoriteStep
  split
  case isFalse => exact List.Perm.refl _
  case isTrue h =>
    obtain ⟨x, hxeq⟩ := List.length_eq_one.mp h.2
    have hhead : s.survived.headD 0 = x := by rw [hxeq]; rfl
    have hndp : (pickerIds s).Nodup := (hperm.nodup_iff).mpr hnd
    rw [pickerIds_def] at hndp
    have hdisj := List.disjoint_of_nodup_append hndp
    have hxmem : x ∈ s.current ++ s.survived ++ s.evaluating ++
        s.eliminated.map (fun e => e.id) := by
      have : x ∈ s.survived := by rw [hxeq]; exact List.mem_singleton_self x
      exact List.mem_append_left _ (List.mem_append_left _ (List.mem_append_right _ this))
    have hnotfav : x ∉ s.favorites := fun hf => hdisj hxmem hf
    rw [hhead]
    have hadd := addToFavorites_pids { s with survived := [] } x hnotfav
    refine hadd.trans ?_
    rw [pickerIds_def, pickerIds_def]
    dsimp only
    rw [hxeq]
    rw [← Multiset.coe_eq_coe]
    simp only [← Multiset.coe_add, List.nil_append]
    have hsing : (↑[x] : Multiset Nat) = ↑([] : List Nat) + ↑[x] := by simp
    ac_rfl

theorem newRound_pids (s : Picker) (shuffled : List Nat)
    (h : shuffled.Perm s.survived) :
    (pickerIds (s.newRound shuffled)).Perm (pickerIds s) := by
  rw [pickerIds_def, pickerIds_def]
  unfold Picker.newRound
  dsimp only
  have hm : (↑shuffled : Multiset Nat) = ↑s.survived := Multiset.coe_eq_coe.mpr h
  rw [← Multiset.coe_eq_coe]
  simp only [← Multiset.coe_add, Multiset.coe_nil, add_zero, zero_add]
  rw [hm]

theorem takeBatch_pids (s : Picker) (hev : s.evaluating = []) :
    (pickerIds (s.takeBatch)).Perm (pickerIds s) := by
  rw [pickerIds_def, pickerIds_def]
  unfold Picker.takeBatch
  dsimp only
  rw [hev]
  have hm : (↑(s.current.take s.batchSize) : Multiset Nat) +
      ↑(s.current.drop s.batchSize) = ↑s.current := by
    rw [Multiset.coe_add, List.take_append_drop]
  rw [← Multiset.coe_eq_coe]
  simp only [← Multiset.coe_add, Multiset.coe_nil, add_zero, zero_add]
  rw [← hm]
  ac_rfl

theorem nextBatch_spec (fuel : Nat) : ∀ (s : Picker) (rng : List Nat),
    (Picker.nextBatch fuel s rng).allIds = s.allIds ∧
      (Picker.nextBatch fuel s rng).history = s.history ∧
      (Picker.nextBatch fuel s rng).historyIndex = s.historyIndex ∧
      (s.allIds.Nodup → (pickerIds s).Perm s.allIds → s.evaluating = [] →
        (pickerIds (Picker.nextBatch fuel s rng)).Perm s.allIds) := by
  induction fuel with
  | zero => exact fun s rng => ⟨rfl, rfl, rfl, fun _ h _ => h⟩
  | succ k ih =>
    intro s rng
    rw [Picker.nextBatch]
    dsimp only
    obtain ⟨hA1, hH1, hI1, hE1⟩ := stuckRestore_fields s
    by_cases hc : (s.stuckRestore).current.length < (s.stuckRestore).batchSize ∧
      (s.stuckRestore).survived ≠ []
    · rw [if_pos hc]
      obtain ⟨hA2, hH2, hI2, hE2⟩ := favoriteStep_fields s.stuckRestore
      obtain ⟨ihA, ihH, ihI, ihP⟩ :=
        ih (((s.stuckRestore).favoriteStep).newRound
            (pickerShuffle rng ((s.stuckRestore).favoriteStep).survived).1)
          (pickerShuffle rng ((s.stuckRestore).favoriteStep).survived).2
      refine ⟨by rw [ihA]; exact hA2.trans hA1 |>.trans rfl,
        by rw [ihH]; exact hH2.trans hH1,
        by rw [ihI]; exact hI2.trans hI1, ?_⟩
      intro hnd hperm hev
      have hperm1 : (pickerIds (s.stuckRestore)).Perm s.allIds :=
        (stuckRestore_pids s).trans hperm
      have hperm2 : (pickerIds ((s.stuckRestore).favoriteStep)).Perm s.allIds := by
        refine (favoriteStep_pids (s.stuckRestore) ?_ ?_).trans hperm1
        · rw [hA1]; exact hnd
        · rw [hA1]; exact hperm1
      have hperm3 : (pickerIds (((s.stuckRestore).favoriteStep).newRound
          (pickerShuffle rng ((s.stuckRestore).favoriteStep).survived).1)).Perm
          s.allIds := by
        refine (newRound_pids _ _ ?_).trans hperm2
        exact pickerShuffle_perm _ _
      have hXa : (((s.stuckRestore).favoriteStep).newRound
          (pickerShuffle rng ((s.stuckRestore).favoriteStep).survived).1).allIds =
          s.allIds := by
        show ((s.stuckRestore).favoriteStep).allIds = s.allIds
        rw [hA2, hA1]
      have hXe : (((s.stuckRestore).favoriteStep).newRound
          (pickerShuffle rng ((s.stuckRestore).favoriteStep).survived).1).evaluating =
          [] := by
        show ((s.stuckRestore).favoriteStep).evaluating = []
        rw [hE2, hE1]
        exact hev
      have hres := ihP (by rw [hXa]; exact hnd) (by rw [hXa]; exact hperm3) hXe
      rw [hXa] at hres
      exact hres
    · rw [if_neg hc]
      refine ⟨hA1, hH1, hI1, ?_⟩
      intro hnd hperm hev
      refine (takeBatch_pids (s.stuckRestore) (hE1.trans hev)).trans
        ((stuckRestore_pids s).trans hperm)

/-! ### History bookkeeping -/

theorem snapIds_snapshot (s : Picker) : snapIds (s.snapshot) = pickerIds s := rfl

theorem pushHistory_pids (s : Picker) : pickerIds (s.pushHistory) = pickerIds s := by
  unfold Picker.pushHistory
  dsimp only
  split <;> split <;> rfl

theorem pushHistory_allIds (s : Picker) : (s.pushHistory).allIds = s.allIds := by
  unfold Picker.pushHistory
  dsimp only
  split <;> split <;> rfl

theorem pushHistory_evaluating (s : Picker) :
    (s.pushHistory).evaluating = s.evaluating := by
  unfold Picker.pushHistory
  dsimp only
  split <;> split <;> rfl

theorem pushHistory_mem (s : Picker) (sn : PickerSnap)
    (h : sn ∈ (s.pushHistory).history) : sn ∈ s.history ∨ sn = s.snapshot := by
  unfold Picker.pushHistory at h
  dsimp only at h
  have hbase : ∀ h0 : List PickerSnap,
      (h0 = s.history.take (s.historyIndex + 1).toNat ∨ h0 = s.history) →
      sn ∈ h0 ++ [s.snapshot] → sn ∈ s.history ∨ sn = s.snapshot := by
    intro h0 hh0 hmem
    rcases List.mem_append.mp hmem with hm | hm
    · left
      rcases hh0 with rfl | rfl
      · exact List.take_subset _ _ hm
      · exact hm
    · right
      exact List.mem_singleton.mp hm
  split at h
  · split at h
    · exact hbase _ (Or.inl rfl) (List.mem_of_mem_drop h)
    · exact hbase _ (Or.inl rfl) h
  · split at h
    · exact hbase _ (Or.inr rfl) (List.mem_of_mem_drop h)
    · exact hbase _ (Or.inr rfl) h

theorem undoOp_inv (s : Picker) (h : PickerInv s) :
    PickerInv (s.undoOp) ∧ (s.undoOp).allIds = s.allIds := by
  obtain ⟨hper, hhist⟩ := h
  have hext : ∀ sn', sn' ∈ s.history ++ [s.snapshot] →
      (snapIds sn').Perm s.allIds := by
    intro sn' hmem
    rcases List.mem_append.mp hmem with hm | hm
    · exact hhist _ hm
    · rw [List.mem_singleton.mp hm, snapIds_snapshot]
      exact hper
  unfold Picker.undoOp
  split
  · exact ⟨⟨hper, hhist⟩, rfl⟩
  · dsimp only
    by_cases hi : s.historyIndex = (s.history.length : Int) - 1
    · rw [if_pos hi]
      dsimp only
      split
      next sn heq =>
        refine ⟨⟨?_, ?_⟩, rfl⟩
        · show (snapIds sn).Perm s.allIds
          exact hext sn (List.get?_mem heq)
        · intro sn' hmem
          exact hext sn' hmem
      next heq =>
        exact ⟨⟨hper, fun sn' hmem => hext sn' hmem⟩, rfl⟩
    · rw [if_neg hi]
      split
      next sn heq =>
        refine ⟨⟨?_, ?_⟩, rfl⟩
        · show (snapIds sn).Perm s.allIds
          exact hhist sn (List.get?_mem heq)
        · intro sn' hmem
          exact hhist sn' hmem
      next heq =>
        exact ⟨⟨hper, fun sn' hmem => hhist sn' hmem⟩, rfl⟩

/-! ### The partition invariant across user operations -/

theorem PickerInv_of (x : Picker) (A : List Nat) (hx : x.allIds = A)
    (h1 : (pickerIds x).Perm A) (h2 : ∀ sn ∈ x.history, (snapIds sn).Perm A) :
    PickerInv x :=
  ⟨by rw [hx]; exact h1, fun sn hm => by rw [hx]; exact h2 sn hm⟩

theorem nextBatch_inv (fuel : Nat) (t : Picker) (rng : List Nat) (A : List Nat)
    (hnd : A.Nodup) (ha : t.allIds = A) (hev : t.evaluating = [])
    (hperm : (pickerIds t).Perm A)
    (hhist : ∀ sn ∈ t.history, (snapIds sn).Perm A) :
    PickerInv (Picker.nextBatch fuel t rng) ∧
      (Picker.nextBatch fuel t rng).allIds = A := by
  obtain ⟨hA, hH, hI, hP⟩ := nextBatch_spec fuel t rng
  have hres : (pickerIds (Picker.nextBatch fuel t rng)).Perm A := by
    have := hP (by rw [ha]; exact hnd) (by rw [ha]; exact hperm) hev
    rw [ha] at this
    exact this
  refine ⟨PickerInv_of _ A (by rw [hA, ha]) hres ?_, by rw [hA, ha]⟩
  intro sn hm
  rw [hH] at hm
  exact hhist sn hm

theorem filter_contains_perm (l : List Nat) (mask : Nat → Bool) :
    (l.filter mask ++
      l.filter (fun x => !((l.filter mask).contains x))).Perm l := by
  have hcongr : l.filter (fun x => !((l.filter mask).contains x)) =
      l.filter (fun x => !mask x) := by
    apply List.filter_congr
    intro x hx
    by_cases hm : mask x <;> simp [List.elem_iff, List.mem_filter, hx, hm]
  rw [hcongr]
  exact List.filter_append_perm mask l

theorem map_id_elim (P l : List Nat) :
    List.map (fun e => e.id)
      (l.map (fun idv => ({ id := idv, eliminatedBy := P } : ElimEntry))) = l := by
  rw [List.map_map]
  show l.map (fun idv => idv) = l
  simp

theorem pick_inv (s : Picker) (mask : Nat → Bool) (rng : List Nat)
    (hnd : s.allIds.Nodup) (h : PickerInv s) :
    PickerInv (s.pick (s.evaluating.filter mask) rng) ∧
      (s.pick (s.evaluating.filter mask) rng).allIds = s.allIds := by
  obtain ⟨hper, hhist⟩ := h
  have hh1 : ∀ sn ∈ (s.pushHistory).history, (snapIds sn).Perm s.allIds := by
    intro sn hm
    rcases pushHistory_mem s sn hm with hm1 | rfl
    · exact hhist sn hm1
    · rw [snapIds_snapshot]
      exact hper
  have hkey : (pickerIds (s.pushHistory)).Perm s.allIds := by
    rw [pushHistory_pids]
    exact hper
  have hevp : (s.pushHistory).evaluating = s.evaluating := pushHistory_evaluating s
  have hPN := filter_contains_perm s.evaluating mask
  unfold Picker.pick
  dsimp only
  rw [hevp]
  split
  next hcond =>
    obtain ⟨ht2, he2, hp1⟩ := hcond
    have hlen : (s.evaluating.filter mask).length +
        (s.evaluating.filter
          (fun x => !((s.evaluating.filter mask).contains x))).length = 2 := by
      have hl := hPN.length_eq
      rw [List.length_append] at hl
      rw [hl]
      exact he2
    have hq1 : (s.evaluating.filter
        (fun x => !((s.evaluating.filter mask).contains x))).length = 1 := by
      omega
    obtain ⟨p, hp⟩ := List.length_eq_one.mp hp1
    obtain ⟨q, hq⟩ := List.length_eq_one.mp hq1
    have hheadP : (s.evaluating.filter mask).headD 0 = p := by rw [hp]; rfl
    have hheadN : (s.evaluating.filter
        (fun x => !((s.evaluating.filter mask).contains x))).headD 0 = q := by
      rw [hq]; rfl
    rw [hheadP, hheadN]
    rw [hq, hp] at hPN
    refine ⟨PickerInv_of _ s.allIds (pushHistory_allIds s) ?_ ?_,
      pushHistory_allIds s⟩
    · refine List.Perm.trans ?_ hkey
      rw [pickerIds_def, pickerIds_def]
      dsimp only
      rw [hevp]
      have hm2 : (↑[p, q] : Multiset Nat) = ↑s.evaluating :=
        Multiset.coe_eq_coe.mpr (by simpa using hPN)
      rw [← Multiset.coe_eq_coe]
      simp only [← Multiset.coe_add, Multiset.coe_nil, add_zero, zero_add]
      rw [hm2]
      ac_rfl
    · exact hh1
  next hcond =>
    refine nextBatch_inv _ _ _ s.allIds hnd (pushHistory_allIds s) rfl ?_ hh1
    refine List.Perm.trans ?_ hkey
    rw [pickerIds_def, pickerIds_def]
    dsimp only
    rw [hevp]
    rw [List.map_append, map_id_elim]
    have hm2 : (↑(s.evaluating.filter mask) : Multiset Nat) +
        ↑(s.evaluating.filter
          (fun x => !((s.evaluating.filter mask).contains x))) =
        ↑s.evaluating := by
      rw [Multiset.coe_add]
      exact Multiset.coe_eq_coe.mpr hPN
    rw [← Multiset.coe_eq_coe]
    simp only [← Multiset.coe_add, Multiset.coe_nil, add_zero, zero_add]
    rw [← hm2]
    ac_rfl

theorem pass_inv (s : Picker) (rng : List Nat) (hnd : s.allIds.Nodup)
    (h : PickerInv s) :
    PickerInv (s.pass rng) ∧ (s.pass rng).allIds = s.allIds := by
  obtain ⟨hper, hhist⟩ := h
  have hh1 : ∀ sn ∈ (s.pushHistory).history, (snapIds sn).Perm s.allIds := by
    intro sn hm
    rcases pushHistory_mem s sn hm with hm1 | rfl
    · exact hhist sn hm1
    · rw [snapIds_snapshot]
      exact hper
  have hkey : (pickerIds (s.pushHistory)).Perm s.allIds := by
    rw [pushHistory_pids]
    exact hper
  unfold Picker.pass
  dsimp only
  refine nextBatch_inv _ _ _ s.allIds hnd (pushHistory_allIds s) rfl ?_ hh1
  refine List.Perm.trans ?_ hkey
  rw [pickerIds_def, pickerIds_def]
  dsimp only
  rw [← Multiset.coe_eq_coe]
  simp only [← Multiset.coe_add, Multiset.coe_nil, add_zero, zero_add]
  ac_rfl

theorem initAll_inv (allIds rng : List Nat) (hnd : allIds.Nodup) :
    PickerInv (Picker.initAll allIds rng) ∧
      (Picker.initAll allIds rng).allIds = allIds := by
  unfold Picker.initAll
  dsimp only
  refine nextBatch_inv _ _ _ allIds hnd rfl rfl ?_ ?_
  · rw [pickerIds_def]
    dsimp only
    simp only [List.map_nil, List.append_nil]
    exact pickerShuffle_perm rng allIds
  · intro sn hm
    exact absurd hm (List.not_mem_nil sn)

theorem applyPickerOp_inv (s : Picker) (op : PickerOp) (hnd : s.allIds.Nodup)
    (h : PickerInv s) :
    PickerInv (applyPickerOp s op) ∧ (applyPickerOp s op).allIds = s.allIds := by
  cases op with
  | pick mask rng => exact pick_inv s mask rng hnd h
  | pass rng => exact pass_inv s rng hnd h
  | undo => exact undoOp_inv s h

theorem foldl_inv (allIds : List Nat) (hnd : allIds.Nodup) :
    ∀ (ops : List PickerOp) (s : Picker), PickerInv s → s.allIds = allIds →
      PickerInv (ops.foldl applyPickerOp s) ∧
        (ops.foldl applyPickerOp s).allIds = allIds := by
  intro ops
  induction ops with
  | nil => exact fun s h ha => ⟨h, ha⟩
  | cons op tl ih =>
    intro s h ha
    have hstep := applyPickerOp_inv s op (by rw [ha]; exact hnd) h
    exact ih _ hstep.1 (hstep.2.trans ha)

theorem runPicker_inv (allIds rng0 : List Nat) (ops : List PickerOp)
    (hnd : allIds.Nodup) :
    PickerInv (runPicker allIds rng0 ops) ∧
      (runPicker allIds rng0 ops).allIds = allIds := by
  unfold runPicker
  have hinit := initAll_inv allIds rng0 hnd
  exact foldl_inv allIds hnd ops _ hinit.1 hinit.2

/-! ### The picker history is capped at 50, not 2000 -/

/-- The history-size invariant that actually holds: `undo` at the end of
history pushes a redo snapshot without trimming, so the stack can
transiently reach 51; `pushHistory` always leaves at most 50. -/
def HB (s : Picker) : Prop :=
  s.history.length ≤ 51 ∧ (s.history.length = 51 → s.historyIndex ≤ 49)

theorem nextBatch_history (fuel : Nat) (t : Picker) (rng : List Nat) :
    (Picker.nextBatch fuel t rng).history = t.history :=
  (nextBatch_spec fuel t rng).2.1

theorem nextBatch_historyIndex (fuel : Nat) (t : Picker) (rng : List Nat) :
    (Picker.nextBatch fuel t rng).historyIndex = t.historyIndex :=
  (nextBatch_spec fuel t rng).2.2.1

theorem pushHistory_len (s : Picker) (h : HB s) :
    (s.pushHistory).history.length ≤ 50 := by
  obtain ⟨h51, hidx⟩ := h
  unfold Picker.pushHistory
  dsimp only
  split
  next hlt =>
    have h0le : (s.history.take (s.historyIndex + 1).toNat).length ≤ 50 := by
      rw [List.length_take]
      by_cases hl : s.history.length = 51
      · have := hidx hl
        omega
      · omega
    split
    next hc =>
      simp only [List.length_drop, List.length_append, List.length_singleton] at hc ⊢
      omega
    next hc =>
      simp only [List.length_append, List.length_singleton] at hc ⊢
      omega
  next hge =>
    have h0le : s.history.length ≤ 50 := by
      by_cases hl : s.history.length = 51
      · have := hidx hl
        omega
      · omega
    split
    next hc =>
      simp only [List.length_drop, List.length_append, List.length_singleton] at hc ⊢
      omega
    next hc =>
      simp only [List.length_append, List.length_singleton] at hc ⊢
      omega

theorem pushHistory_HB (s : Picker) (h : HB s) : HB (s.pushHistory) := by
  have := pushHistory_len s h
  exact ⟨by omega, fun hl => by omega⟩

theorem pick_hist_len (s : Picker) (picked rng : List Nat) (h : HB s) :
    (s.pick picked rng).history.length ≤ 50 := by
  unfold Picker.pick
  dsimp only
  split
  · exact pushHistory_len s h
  · rw [nextBatch_history]
    exact pushHistory_len s h

theorem pass_hist_len (s : Picker) (rng : List Nat) (h : HB s) :
    (s.pass rng).history.length ≤ 50 := by
  unfold Picker.pass
  dsimp only
  rw [nextBatch_history]
  exact pushHistory_len s h

theorem pick_HB (s : Picker) (picked rng : List Nat) (h : HB s) :
    HB (s.pick picked rng) := by
  have := pick_hist_len s picked rng h
  exact ⟨by omega, fun hl => by omega⟩

theorem pass_HB (s : Picker) (rng : List Nat) (h : HB s) : HB (s.pass rng) := by
  have := pass_hist_len s rng h
  exact ⟨by omega, fun hl => by omega⟩

theorem undoOp_HB (s : Picker) (h : HB s) : HB (s.undoOp) := by
  obtain ⟨h51, hidx⟩ := h
  unfold Picker.undoOp
  split
  · exact ⟨h51, hidx⟩
  next hneg =>
    dsimp only
    by_cases hi : s.historyIndex = (s.history.length : Int) - 1
    · rw [if_pos hi]
      have hlen : s.history.length ≤ 50 := by
        by_cases hl : s.history.length = 51
        · have := hidx hl
          omega
        · omega
      dsimp only
      split
      · refine ⟨?_, fun hl => ?_⟩
        · show (s.history ++ [s.snapshot]).length ≤ 51
          simp only [List.length_append, List.length_singleton]
          omega
        · show s.historyIndex - 1 ≤ 49
          have : (s.history ++ [s.snapshot]).length = 51 := hl
          simp only [List.length_append, List.length_singleton] at this
          omega
      · refine ⟨?_, fun hl => ?_⟩
        · show (s.history ++ [s.snapshot]).length ≤ 51
          simp only [List.length_append, List.length_singleton]
          omega
        · show s.historyIndex - 1 ≤ 49
          have : (s.history ++ [s.snapshot]).length = 51 := hl
          simp only [List.length_append, List.length_singleton] at this
          omega
    · rw [if_neg hi]
      split
      · refine ⟨h51, fun hl => ?_⟩
        have := hidx hl
        show s.historyIndex - 1 ≤ 49
        omega
      · refine ⟨h51, fun hl => ?_⟩
        have := hidx hl
        show s.historyIndex - 1 ≤ 49
        omega

theorem applyPickerOp_HB (s : Picker) (op : PickerOp) (h : HB s) :
    HB (applyPickerOp s op) := by
  cases op with
  | pick mask rng => exact pick_HB s _ rng h
  | pass rng => exact pass_HB s rng h
  | undo => exact undoOp_HB s h

theorem initAll_HB (allIds rng : List Nat) :
    HB (Picker.initAll allIds rng) := by
  unfold Picker.initAll
  dsimp only
  constructor
  · rw [nextBatch_history]
    simp
  · rw [nextBatch_history, nextBatch_historyIndex]
    intro hl
    simp at hl

theorem runPicker_HB (allIds rng0 : List Nat) (ops : List PickerOp) :
    HB (runPicker allIds rng0 ops) := by
  unfold runPicker
  have hgen : ∀ (l : List PickerOp) (s : Picker), HB s →
      HB (l.foldl applyPickerOp s) := by
    intro l
    induction l with
    | nil => exact fun s h => h
    | cons op tl ih => exact fun s h => ih _ (applyPickerOp_HB s op h)
  exact hgen ops _ (initAll_HB allIds rng0)

/-! ## Claim theorems -/

/-- C1: running the resumable merge-sort driver to completion on distinct
candidates yields a permutation of the input — no candidate duplicated and
none omitted — for every oracle outcome sequence. -/
theorem c1_mergeSort_permutation (ids : List Nat) (fuel : Nat)
    (outs : List Judgment) (res : List Nat) (hnd : ids.Nodup)
    (hres : mergeSortResult ids fuel outs = some res) : res.Perm ids :=
  mergeSortResult_perm ids fuel outs res hnd hres

/-- Witness for C1 at a concrete completed run. -/
theorem c1_mergeSort_permutation_witness :
    ([0, 1, 2, 3] : List Nat).Nodup ∧
    mergeSortResult [0, 1, 2, 3] 64
      [Judgment.lft, Judgment.lft, Judgment.lft, Judgment.rgt, Judgment.lft] =
      some [0, 2, 1, 3] ∧
    ([0, 2, 1, 3] : List Nat).Perm [0, 1, 2, 3] :=
  ⟨by decide, by decide,
    c1_mergeSort_permutation [0, 1, 2, 3] 64
      [Judgment.lft, Judgment.lft, Judgment.lft, Judgment.rgt, Judgment.lft]
      [0, 2, 1, 3] (by decide) (by decide)⟩

/-- C2 counterexample: at `n = 4` with intensity 'fast' the base target is
12, yet `totalPairs` is also 12 — not `0.6 × 12` as the spec claims — since
`extra = max(0, round((0.6 - 1) · base))` clamps to `0`. -/
theorem c2_fast_not_scaled :
    (initEloCore 4 Intensity.fast).basePairs = 12 ∧
    (initEloCore 4 Intensity.fast).totalPairs = 12 ∧
    ¬(((initEloCore 4 Intensity.fast).totalPairs : ℚ) =
        6 / 10 * ((initEloCore 4 Intensity.fast).basePairs : ℚ)) := by
  have hb : (initEloCore 4 Intensity.fast).basePairs = 12 := by
    show estimateEloPairTarget 4 = 12
    exact estimateEloPairTarget_four
  have ht : (initEloCore 4 Intensity.fast).totalPairs = 12 := by
    rw [(initEloCore_fast 4).1, estimateEloPairTarget_four]
  refine ⟨hb, ht, ?_⟩
  rw [hb, ht]
  norm_num

/-- C2 (amended): `basePairs = estimateEloPairTarget n` and the intensity
multiplier only feeds `extra = max(0, round((multiplier-1)·base))`, so
'fast' (K=40) and 'balanced' (K=32) both leave `totalPairs = base`, while
'accurate' (K=24) yields `base + round(base/2)`. -/
theorem c2_amended_initElo (n : Nat) :
    (initEloCore n Intensity.fast).totalPairs = estimateEloPairTarget n ∧
    (initEloCore n Intensity.fast).kFactor = 40 ∧
    (initEloCore n Intensity.balanced).totalPairs = estimateEloPairTarget n ∧
    (initEloCore n Intensity.balanced).kFactor = 32 ∧
    (initEloCore n Intensity.accurate).totalPairs =
      estimateEloPairTarget n + (estimateEloPairTarget n + 1) / 2 ∧
    (initEloCore n Intensity.accurate).kFactor = 24 :=
  ⟨(initEloCore_fast n).1, (initEloCore_fast n).2, (initEloCore_balanced n).1,
    (initEloCore_balanced n).2, (initEloCore_accurate n).1,
    (initEloCore_accurate n).2⟩

/-- C3 counterexample: on 5 candidates the claimed bound is 8, but a run of
the bottom-up driver reaches completion having judged 9 distinct pairs. -/
theorem c3_bound_exceeded :
    totalComparisonUpperBound 5 = 8 ∧
    (runMergeSort [0, 1, 2, 3, 4] 40
      [Judgment.lft, Judgment.lft, Judgment.rgt, Judgment.lft, Judgment.lft,
        Judgment.lft, Judgment.lft, Judgment.lft, Judgment.lft]).2.2 = true ∧
    countUniqueCachePairs (runMergeSort [0, 1, 2, 3, 4] 40
      [Judgment.lft, Judgment.lft, Judgment.rgt, Judgment.lft, Judgment.lft,
        Judgment.lft, Judgment.lft, Judgment.lft, Judgment.lft]).1.cache = 9 := by
  refine ⟨?_, by decide, by decide⟩
  have hc : ceilLog2 5 = 3 := by simp [ceilLog2, Nat.clog]
  show (if 5 ≤ 1 then 0 else 5 * ceilLog2 5 - (2 ^ ceilLog2 5 - 1)) = 8
  rw [hc]
  decide

/-- C3 (amended): the number of distinct judged pairs is bounded by the
number of unordered pairs of candidates, `n(n-1)/2`, for every outcome
sequence. -/
theorem c3_amended_uniquePairs (ids : List Nat) (fuel : Nat)
    (outs : List Judgment) (hnd : ids.Nodup) :
    countUniqueCachePairs (runMergeSort ids fuel outs).1.cache ≤
      ids.length * (ids.length - 1) / 2 :=
  mergeSort_uniquePairs_le ids fuel outs hnd

/-- Witness for the amended C3 at a concrete run. -/
theorem c3_amended_uniquePairs_witness :
    ([0, 1, 2] : List Nat).Nodup ∧
    countUniqueCachePairs
      (runMergeSort [0, 1, 2] 32 [Judgment.lft, Judgment.lft]).1.cache ≤ 3 := by
  refine ⟨by decide, ?_⟩
  have h := c3_amended_uniquePairs [0, 1, 2] 32 [Judgment.lft, Judgment.lft]
    (by decide)
  simpa using h

/-- C4 (code bug): two judgments followed by one Back land on the state
after the first judgment, and renewed Backs can never reach further: the
snapshot pushed at every re-request pins the stack, so `k` judgments and
`k-1` Backs do not restore the pre-first-judgment frame/cache/ties (here
`k = 2`). -/
theorem c4_undo_no_long_backtrack :
    ((runMergeSort [0, 1, 2, 3] 64
        [Judgment.lft, Judgment.lft, Judgment.back]).1.fr =
      (runMergeSort [0, 1, 2, 3] 64 [Judgment.lft]).1.fr ∧
    (runMergeSort [0, 1, 2, 3] 64
        [Judgment.lft, Judgment.lft, Judgment.back]).1.cache =
      (runMergeSort [0, 1, 2, 3] 64 [Judgment.lft]).1.cache ∧
    (runMergeSort [0, 1, 2, 3] 64
        [Judgment.lft, Judgment.lft, Judgment.back]).1.ties =
      (runMergeSort [0, 1, 2, 3] 64 [Judgment.lft]).1.ties) ∧
    ¬((runMergeSort [0, 1, 2, 3] 64
        [Judgment.lft, Judgment.lft, Judgment.back]).1.fr =
      (runMergeSort [0, 1, 2, 3] 64 ([] : List Judgment)).1.fr ∧
    (runMergeSort [0, 1, 2, 3] 64
        [Judgment.lft, Judgment.lft, Judgment.back]).1.cache =
      (runMergeSort [0, 1, 2, 3] 64 ([] : List Judgment)).1.cache ∧
    (runMergeSort [0, 1, 2, 3] 64
        [Judgment.lft, Judgment.lft, Judgment.back]).1.ties =
      (runMergeSort [0, 1, 2, 3] 64 ([] : List Judgment)).1.ties) := by
  decide

/-- C5: after any sequence of pick/pass/undo operations from a fresh
picker on distinct candidate ids, the concatenation of
current/survived/evaluating/eliminated/favorites has no duplicates and is
a permutation of the candidate ids — every id sits in exactly one
collection. -/
theorem c5_picker_partition (allIds rng0 : List Nat) (ops : List PickerOp)
    (hnd : allIds.Nodup) :
    (pickerIds (runPicker allIds rng0 ops)).Nodup ∧
      (pickerIds (runPicker allIds rng0 ops)).Perm allIds := by
  obtain ⟨⟨hperm, _⟩, hA⟩ := runPicker_inv allIds rng0 ops hnd
  rw [hA] at hperm
  exact ⟨hperm.nodup_iff.mpr hnd, hperm⟩

/-- Witness for C5 at a concrete run. -/
theorem c5_picker_partition_witness :
    ([1, 2, 3] : List Nat).Nodup ∧
    ((pickerIds (runPicker [1, 2, 3] [] [PickerOp.pass []])).Nodup ∧
      (pickerIds (runPicker [1, 2, 3] [] [PickerOp.pass []])).Perm [1, 2, 3]) :=
  ⟨by decide, c5_picker_partition [1, 2, 3] [] [PickerOp.pass []] (by decide)⟩

/-- C6: after every sequence of judgments, the comparison cache stores
exact inverses under the two orderings of each judged pair, and ties are
recorded as `0` both ways with both orderings in the tie set. -/
theorem c6_cache_symmetry (ids : List Nat) (fuel : Nat) (outs : List Judgment)
    (hnd : ids.Nodup) :
    CacheSymm (runMergeSort ids fuel outs).1.cache
      (runMergeSort ids fuel outs).1.ties :=
  mergeSort_cache_symmetric ids fuel outs hnd

/-- Witness for C6 at a concrete run. -/
theorem c6_cache_symmetry_witness :
    ([0, 1] : List Nat).Nodup ∧
    CacheSymm (runMergeSort [0, 1] 8 [Judgment.lft]).1.cache
      (runMergeSort [0, 1] 8 [Judgment.lft]).1.ties :=
  ⟨by decide, c6_cache_symmetry [0, 1] 8 [Judgment.lft] (by decide)⟩

/-- C7: every applied cutoff is clamped to at most the remaining count,
and the seven tiers plus `Unplaced` partition the ranking exactly — their
concatenation is the ranking itself, and their sizes sum to its length. -/
theorem c7_tier_partition (cs : CutState) (value : Int) :
    ((applyCutoffsToTiers cs).map (fun p => p.2)).flatten = cs.rankIds ∧
    (((applyCutoffsToTiers cs).map (fun p => p.2)).map List.length).sum =
      cs.rankIds.length ∧
    chosenGet (applyCut cs value).chosen (CUTOFF_TIERS.getD cs.pos TierLabel.SS) ≤
      cs.rankIds.length - cs.cursor :=
  ⟨applyCutoffsToTiers_flatten cs, applyCutoffsToTiers_lengths cs,
    applyCut_clamped cs value⟩

/-- C8 counterexample: after `A>B, C>D, A>C` the next judgment is B-vs-C,
not B-vs-D: answering Left (B wins) there completes with `[A,B,C,D]`,
which is neither `[A,C,B,D]` nor `[A,C,D,B]`. -/
theorem c8_scenario_third_outcome :
    mergeSortResult [0, 1, 2, 3] 64
      [Judgment.lft, Judgment.lft, Judgment.lft, Judgment.lft] =
      some [0, 1, 2, 3] ∧
    ([0, 1, 2, 3] : List Nat) ≠ [0, 2, 1, 3] ∧
    ([0, 1, 2, 3] : List Nat) ≠ [0, 2, 3, 1] := by
  decide

/-- C8 (amended): after `A>B, C>D, A>C` the driver asks B-vs-C; answering
B wins yields `[A,B,C,D]`, while answering C wins leads to a final B-vs-D
judgment deciding between `[A,C,B,D]` and `[A,C,D,B]`. -/
theorem c8_amended_scenario :
    mergeSortResult [0, 1, 2, 3] 64
      [Judgment.lft, Judgment.lft, Judgment.lft, Judgment.lft] =
      some [0, 1, 2, 3] ∧
    mergeSortResult [0, 1, 2, 3] 64
      [Judgment.lft, Judgment.lft, Judgment.lft, Judgment.rgt, Judgment.lft] =
      some [0, 2, 1, 3] ∧
    mergeSortResult [0, 1, 2, 3] 64
      [Judgment.lft, Judgment.lft, Judgment.lft, Judgment.rgt, Judgment.rgt] =
      some [0, 2, 3, 1] := by
  decide

set_option maxRecDepth 100000 in
/-- C9 counterexample: 51 pass operations push 51 snapshots, yet the
picker history retains only 50 — the oldest entry is discarded at 51
entries already, far below the claimed 2000 cap. -/
theorem c9_picker_cap_is_50 :
    (runPicker [1, 2, 3] []
      (List.replicate 51 (PickerOp.pass []))).history.length = 50 ∧
    51 ≤ MAX_UNDO := by
  exact ⟨by decide, by decide⟩

/-- C9 (amended): `pushUndoSnapshot` caps its stack at 2000 dropping the
oldest, so the merge-sort/ELO drivers' undo stacks never exceed 2000;
the elimination picker's history is instead capped at 50 after every
pick or pass. -/
theorem c9_amended_snapshot_bounds :
    (∀ (u : List Snap) (sn : Snap), u.length ≤ MAX_UNDO →
      (pushSnap u sn).length ≤ MAX_UNDO) ∧
    (∀ (ids : List Nat) (fuel : Nat) (outs : List Judgment),
      (runMergeSort ids fuel outs).1.undo.length ≤ MAX_UNDO) ∧
    (∀ (allIds rng0 : List Nat) (ops : List PickerOp) (mask : Nat → Bool)
      (rng : List Nat),
      ((runPicker allIds rng0 ops).pick
        ((runPicker allIds rng0 ops).evaluating.filter mask)
        rng).history.length ≤ 50 ∧
      ((runPicker allIds rng0 ops).pass rng).history.length ≤ 50) := by
  refine ⟨fun u sn h => pushSnap_le h, runMergeSort_undo_le, ?_⟩
  intro allIds rng0 ops mask rng
  have hb := runPicker_HB allIds rng0 ops
  exact ⟨pick_hist_len _ _ _ hb, pass_hist_len _ _ hb⟩

/-- Witness for the amended C9's conditional clause at a concrete stack. -/
theorem c9_amended_snapshot_bounds_witness :
    ([] : List Snap).length ≤ MAX_UNDO ∧
    (pushSnap [] ⟨none, [], []⟩).length ≤ MAX_UNDO :=
  ⟨by decide, c9_amended_snapshot_bounds.1 [] ⟨none, [], []⟩ (by decide)⟩

/-- C10: `seededShuffle` never reads its seed — the generator is created
by a no-argument `seededRandom()` call, whose state is `0 >>> 0 || 1 = 1`
— so any two seeds give identical shuffles. -/
theorem c10_shuffle_ignores_seed :
    (∀ (a : List Cand) (s1 s2 : Nat), seededShuffle a s1 = seededShuffle a s2) ∧
    seededRandomInit none = 1 :=
  ⟨fun _ _ _ => rfl, rfl⟩

end PresSort

